import Mathlib

/-!
Verification development for a two-mode (initial/nightly) listing scraper.

Shallow embedding of the repository's Python sources:
  * `scraper/parsing.py`   — text cleaning, date normalisation, name splitting;
  * `scraper/main.py`      — the crawl orchestrator `run`, resume logic,
                             reconciliation of observed rows into entities;
  * `scraper/known_makes.py` — the static fallback vocabulary.

Timestamps are modelled as wall-clock seconds (`Int`) since 1970-01-01 00:00
local time; Python `datetime.replace`/`timedelta` arithmetic on the
Europe/London wall clock is mirrored by integer arithmetic (the code never
crosses a DST boundary inside a single arithmetic step in the properties
considered here, and all comparisons in the claims are at wall-clock
granularity).  HTML-entity unescaping inside `clean_text` is not modelled
(it is the identity on every string considered in the claims, none of which
contains an ampersand escape); Python's `str.lower`/`re.IGNORECASE` and
`str.strip` are modelled at ASCII granularity, which is exact for the inputs
the source's regexes can accept.
-/

namespace Scraper

/-! ## Characters and strings (Python `str` helpers) -/

/-- The whitespace class of Python's `\s` / `str.strip` (ASCII part). -/
def isPySpace (c : Char) : Bool :=
  c = ' ' || c = '\t' || c = '\n' || c = '\r' || c = '\x0b' || c = '\x0c'

/-- ASCII decimal digit, as matched by `\d` in the source's regexes. -/
def isDigitC (c : Char) : Bool :=
  '0' ≤ c && c ≤ '9'

/-- ASCII lower-casing, modelling Python `str.lower` / `re.IGNORECASE`
on the ASCII alphabet (the only letters the source's patterns contain). -/
def lowerC (c : Char) : Char :=
  if 'A' ≤ c ∧ c ≤ 'Z' then Char.ofNat (c.toNat + 32) else c

/-- Python `str.strip()` on a character list. -/
def pyStripList (l : List Char) : List Char :=
  ((l.dropWhile isPySpace).reverse.dropWhile isPySpace).reverse

/-- Python `str.strip()`. -/
def pyStrip (s : String) : String :=
  ⟨pyStripList s.toList⟩

/-- `re.sub(r"\s+", " ", s)`: every maximal whitespace run becomes one space. -/
def squeezeSpaces : List Char → List Char
  | [] => []
  | c :: cs =>
    let c' := if isPySpace c then ' ' else c
    match squeezeSpaces cs with
    | [] => [c']
    | d :: ds => if c' = ' ' ∧ d = ' ' then d :: ds else c' :: d :: ds

/-- `parsing.clean_text`: collapse whitespace, then strip.
(HTML-entity unescaping is the identity on the ampersand-free inputs the
claims use and is not modelled.) -/
def clean_text (s : String) : String :=
  pyStrip ⟨squeezeSpaces s.toList⟩

/-- Python `str.lower()` (ASCII). -/
def strLower (s : String) : String :=
  ⟨s.toList.map lowerC⟩

/-- Numeric value of a digit run (the regexes guarantee only digits appear). -/
def digitsToNat (ds : List Char) : Nat :=
  ds.foldl (fun a c => a * 10 + (c.toNat - 48)) 0

/-! ## Calendar (proleptic Gregorian, modelling Python `datetime`) -/

/-- Days since 1970-01-01 of the civil date `y-m-d` (Gregorian). -/
def daysFromCivil (y m d : Int) : Int :=
  let y' := if m ≤ 2 then y - 1 else y
  let era := Int.ediv y' 400
  let yoe := y' - era * 400
  let mp  := Int.emod (m + 9) 12
  let doy := Int.ediv (153 * mp + 2) 5 + d - 1
  let doe := yoe * 365 + Int.ediv yoe 4 - Int.ediv yoe 100 + doy
  era * 146097 + doe - 719468

/-- Civil date `(y, m, d)` of a day count (inverse of `daysFromCivil`). -/
def civilFromDays (z0 : Int) : Int × Int × Int :=
  let z := z0 + 719468
  let era := Int.ediv z 146097
  let doe := z - era * 146097
  let yoe := Int.ediv (doe - Int.ediv doe 1460 + Int.ediv doe 36524 - Int.ediv doe 146096) 365
  let y := yoe + era * 400
  let doy := doe - (365 * yoe + Int.ediv yoe 4 - Int.ediv yoe 100)
  let mp := Int.ediv (5 * doy + 2) 153
  let d := doy - Int.ediv (153 * mp + 2) 5 + 1
  let m := if mp < 10 then mp + 3 else mp - 9
  (if m ≤ 2 then y + 1 else y, m, d)

def isLeapYear (y : Int) : Bool :=
  (Int.emod y 4 = 0 ∧ Int.emod y 100 ≠ 0) ∨ Int.emod y 400 = 0

def daysInMonth (y m : Int) : Int :=
  if m = 2 then (if isLeapYear y then 29 else 28)
  else if m = 4 ∨ m = 6 ∨ m = 9 ∨ m = 11 then 30
  else 31

/-- Wall-clock seconds of `y-m-d hh:mm` local time. -/
def mkDT (y m d hh mm : Int) : Int :=
  86400 * daysFromCivil y m d + 3600 * hh + 60 * mm

/-- Day number of a timestamp. -/
def dayIndex (t : Int) : Int := Int.ediv t 86400

/-- Seconds since local midnight. -/
def timeOfDay (t : Int) : Int := Int.emod t 86400

/-- Local midnight of a timestamp's day (Python
`dt.replace(hour=0, minute=0, second=0, microsecond=0)`). -/
def dayStart (t : Int) : Int := t - timeOfDay t

/-- Python `datetime.weekday()`: Monday = 0.  1970-01-01 was a Thursday. -/
def weekdayOf (t : Int) : Int := Int.emod (dayIndex t + 3) 7

/-- Calendar year of a timestamp (Python `dt.year`). -/
def yearOf (t : Int) : Int := (civilFromDays (dayIndex t)).1

/-- Validity of the arguments of Python
`datetime.replace(year=y, month=m, day=d, hour=hh, minute=mm)`:
out-of-range arguments raise `ValueError`. -/
def validYMDHM (y m d hh mm : Int) : Bool :=
  1 ≤ y ∧ y ≤ 9999 ∧ 1 ≤ m ∧ m ≤ 12 ∧ 1 ≤ d ∧ d ≤ daysInMonth y m ∧
    0 ≤ hh ∧ hh ≤ 23 ∧ 0 ≤ mm ∧ mm ≤ 59

/-! ## Pattern matchers for `parsing.parse_fleet_updated`

Each of the source's regexes is rendered as a deterministic character-list
matcher; `search`-style patterns are wrapped in a left-to-right position scan,
`fullmatch`-style patterns require the whole input to be consumed.  The
patterns contain no ambiguity that Python backtracking could exploit (a digit
run followed by a mandatory non-digit behaves exactly like a maximal-munch
digit scan). -/

/-- Consume `pat` (stored lower-case) case-insensitively from the front. -/
def matchCI : List Char → List Char → Option (List Char)
  | [], s => some s
  | _ :: _, [] => none
  | p :: ps, c :: cs => if lowerC c = p then matchCI ps cs else none

def weekdayNames : List (List Char) :=
  ["monday".toList, "tuesday".toList, "wednesday".toList, "thursday".toList,
   "friday".toList, "saturday".toList, "sunday".toList]

def monthNames : List (List Char) :=
  ["january".toList, "february".toList, "march".toList, "april".toList,
   "may".toList, "june".toList, "july".toList, "august".toList,
   "september".toList, "october".toList, "november".toList, "december".toList]

/-- Try a list of alternative literal patterns in order (regex alternation);
returns the 0-based index of the alternative that matched and the rest. -/
def altCI (pats : List (List Char)) (s : List Char) : Option (Nat × List Char) :=
  match pats with
  | [] => none
  | p :: ps =>
    match matchCI p s with
    | some r => some (0, r)
    | none => (altCI ps s).map (fun x => (x.1 + 1, x.2))

/-- `(\d{1,2}):(\d{2})` followed by the rest; the hour run must be 1–2 digits
(a longer run cannot be saved by backtracking because `:` must follow). -/
def hhmmAt (l : List Char) : Option (Nat × Nat × List Char) :=
  let ds := l.takeWhile isDigitC
  if 1 ≤ ds.length ∧ ds.length ≤ 2 then
    match l.drop ds.length with
    | ':' :: r =>
      match r with
      | a :: b :: r2 =>
        if isDigitC a ∧ isDigitC b ∧ ¬ (∃ c, r2.head? = some c ∧ isDigitC c) then
          some (digitsToNat ds, digitsToNat [a, b], r2)
        else none
      | _ => none
    | _ => none
  else none

/-- Full match of `^(\d{1,2}):(\d{2})$` (branch 4 of the normaliser). -/
def hhmmFull (l : List Char) : Option (Nat × Nat) :=
  match hhmmAt l with
  | some (h, m, []) => some (h, m)
  | _ => none

/-- `\((\d{1,2}):(\d{2})\)` at the current position. -/
def parenTimeAt (l : List Char) : Option (Nat × Nat × List Char) :=
  match l with
  | '(' :: r =>
    match hhmmAt r with
    | some (h, m, ')' :: r2) => some (h, m, r2)
    | _ => none
  | _ => none

/-- `Yesterday\s*\((\d{1,2}):(\d{2})\)` at the current position. -/
def yestAt (l : List Char) : Option (Nat × Nat) :=
  match matchCI "yesterday".toList l with
  | none => none
  | some r =>
    match parenTimeAt (r.dropWhile isPySpace) with
    | some (h, m, _) => some (h, m)
    | none => none

/-- `re.search` of the Yesterday pattern: leftmost matching position. -/
def searchYest : List Char → Option (Nat × Nat)
  | [] => none
  | c :: cs =>
    match yestAt (c :: cs) with
    | some r => some r
    | none => searchYest cs

/-- `(Monday|…|Sunday)\s*\((\d{1,2}):(\d{2})\)` at the current position;
returns (weekday index, hour, minute). -/
def wdTimeAt (l : List Char) : Option (Nat × Nat × Nat) :=
  match altCI weekdayNames l with
  | none => none
  | some (w, r) =>
    match parenTimeAt (r.dropWhile isPySpace) with
    | some (h, m, _) => some (w, h, m)
    | none => none

/-- `re.search` of the weekday-time pattern. -/
def searchWdTime : List Char → Option (Nat × Nat × Nat)
  | [] => none
  | c :: cs =>
    match wdTimeAt (c :: cs) with
    | some r => some r
    | none => searchWdTime cs

/-- Ordinal suffix `(st|nd|rd|th)`, case-insensitive. -/
def ordSuffixAt (l : List Char) : Option (List Char) :=
  match matchCI "st".toList l with
  | some r => some r
  | none =>
    match matchCI "nd".toList l with
    | some r => some r
    | none =>
      match matchCI "rd".toList l with
      | some r => some r
      | none => matchCI "th".toList l

/-- Optional tail `(?:\s*\((\d{1,2}):(\d{2})\))?$` after day/month/year. -/
def timeTailFull (l : List Char) : Option (Nat × Nat) :=
  match parenTimeAt (l.dropWhile isPySpace) with
  | some (h, m, []) => some (h, m)
  | _ => none

/-- Full match of the long-form date regex `LONG_DATE_RE`:
`^Weekday\s+\d{1,2}(st|nd|rd|th)\s+Month(?:\s+(\d{4}))?(?:\s*\((\d{1,2}):(\d{2})\))?$`.
Returns (day, month number, optional year, hour, minute) — hour/minute
default to 0 exactly as the orchestrating code defaults absent groups. -/
def longDateFull (l : List Char) : Option (Nat × Nat × Option Nat × Nat × Nat) :=
  match altCI weekdayNames l with
  | none => none
  | some (_, r) =>
    if (r.takeWhile isPySpace).length = 0 then none else
    let r := r.dropWhile isPySpace
    let ds := r.takeWhile isDigitC
    if 1 ≤ ds.length ∧ ds.length ≤ 2 then
      match ordSuffixAt (r.drop ds.length) with
      | none => none
      | some r2 =>
        if (r2.takeWhile isPySpace).length = 0 then none else
        let r2 := r2.dropWhile isPySpace
        match altCI monthNames r2 with
        | none => none
        | some (mi, r3) =>
          let day := digitsToNat ds
          let mon := mi + 1
          if r3 = [] then some (day, mon, none, 0, 0) else
          let r4 := r3.dropWhile isPySpace
          if (r3.takeWhile isPySpace).length ≠ 0 ∧
              (∃ c, r4.head? = some c ∧ isDigitC c) then
            -- year alternative: needs exactly four digits
            let ys := r4.takeWhile isDigitC
            if ys.length = 4 then
              let r5 := r4.drop 4
              if r5 = [] then some (day, mon, some (digitsToNat ys), 0, 0)
              else
                match timeTailFull r5 with
                | some (h, m) => some (day, mon, some (digitsToNat ys), h, m)
                | none => none
            else none
          else
            match timeTailFull r3 with
            | some (h, m) => some (day, mon, none, h, m)
            | none => none
    else none

/-- Full match of a bare weekday name (branch 5). -/
def bareWeekdayFull (l : List Char) : Option Nat :=
  match altCI weekdayNames l with
  | some (w, []) => some w
  | _ => none

/-! ## `parsing.parse_fleet_updated` -/

/-- Resolution of a weekday reference (branches 3 and 5 of the source):
`days_back = (now.weekday() - target) % 7`, candidate at `hm` seconds past
midnight of that day, minus 7 days if the candidate lies in the future. -/
def wdResolve (now target hm : Int) : Int :=
  let db := Int.emod (weekdayOf now - target) 7
  let c := dayStart (now - 86400 * db) + hm
  if now < c then c - 7 * 86400 else c

/-- `parsing.parse_fleet_updated`.  `.error ()` models an uncaught
`ValueError` from `datetime.replace` (only the long-date branch guards it
with `try`); `.ok none` is the source's "unparseable" result. -/
def parse_fleet_updated (updated_raw : String) (now : Int) : Except Unit (Option Int) :=
  let l := (clean_text updated_raw).toList
  match longDateFull l with
  | some (d, mon, yOpt, hh, mm) =>
    let y : Int := match yOpt with | some yy => (yy : Int) | none => yearOf now
    if validYMDHM y mon d hh mm then .ok (some (mkDT y mon d hh mm)) else .ok none
  | none =>
  match searchYest l with
  | some (hh, mm) =>
    if hh ≤ 23 ∧ mm ≤ 59 then
      .ok (some (dayStart (now - 86400) + 3600 * hh + 60 * mm))
    else .error ()
  | none =>
  match searchWdTime l with
  | some (w, hh, mm) =>
    if hh ≤ 23 ∧ mm ≤ 59 then
      .ok (some (wdResolve now w (3600 * hh + 60 * mm)))
    else .error ()
  | none =>
  match hhmmFull l with
  | some (hh, mm) =>
    if hh ≤ 23 ∧ mm ≤ 59 then
      let dt := dayStart now + 3600 * hh + 60 * mm
      .ok (some (if now + 60 < dt then dt - 86400 else dt))
    else .error ()
  | none =>
  match bareWeekdayFull l with
  | some w => .ok (some (wdResolve now w 0))
  | none => .ok none

/-! ## `parsing.parse_make_model_year` (Name Splitter) -/

/-- `YEAR_RE = \((19|20)\d{2}\)\s*$`: split a trailing parenthesised year off
the end of the string.  Returns `(year, prefix before the match)`; the
source then strips the remaining prefix. -/
def yearSplit (l : List Char) : Option (Nat × List Char) :=
  match (l.reverse.dropWhile isPySpace) with
  | ')' :: b :: a :: c2 :: c1 :: '(' :: restRev =>
    if ((c1 = '1' ∧ c2 = '9') ∨ (c1 = '2' ∧ c2 = '0')) ∧ isDigitC a ∧ isDigitC b then
      some (digitsToNat [c1, c2, a, b], restRev.reverse)
    else none
  | _ => none

/-- The removal regex `^re.escape(make)\s+` with `IGNORECASE`: consume the
vocabulary entry literally (case-insensitively), then at least one whitespace
character (greedily). -/
def stripMakeCI (mk : List Char) (s : List Char) : Option (List Char) :=
  match matchCI (mk.map lowerC) s with
  | none => none
  | some r =>
    if (r.takeWhile isPySpace).length = 0 then none
    else some (r.dropWhile isPySpace)

/-- Insert into a length-descending list, before the first entry that is not
longer (so an earlier-listed entry precedes later ones of equal length). -/
def insertByLen (a : String) : List String → List String
  | [] => [a]
  | b :: t => if b.length ≤ a.length then a :: b :: t else b :: insertByLen a t

/-- Python `sorted(known_makes, key=len, reverse=True)`: the stable sort by
descending length (rendered as a stable insertion sort, which computes the
same list). -/
def sortByLenDesc : List String → List String
  | [] => []
  | a :: t => insertByLen a (sortByLenDesc t)

/-- The display string with the trailing `(YYYY)` removed and stripped
(`dn_wo_year` in the source). -/
def dnWoYear (display_name : String) : String :=
  match yearSplit (pyStrip display_name).toList with
  | some (_, pre) => pyStrip ⟨pre⟩
  | none => pyStrip display_name

/-- The trailing year of the display string, when present. -/
def displayYear (display_name : String) : Option Nat :=
  (yearSplit (pyStrip display_name).toList).map (fun x => x.1)

/-- `dn_norm` in the source: whitespace-normalised, lower-cased year-free
display string. -/
def dnNorm (display_name : String) : String :=
  strLower (pyStrip ⟨squeezeSpaces (dnWoYear display_name).toList⟩)

/-- The per-entry match test of the source: exact equality with the
normalised display, or the entry followed by a space as its prefix
(Python `dn_norm == mk_norm or dn_norm.startswith(mk_norm + " ")`). -/
def makeMatches (dn_norm : String) (mk : String) : Bool :=
  dn_norm = strLower mk ∨ ((strLower mk).toList ++ [' ']).isPrefixOf dn_norm.toList

/-- `parsing.parse_make_model_year`. -/
def parse_make_model_year (display_name : String) (known_makes : List String) :
    Option String × Option String × Option Nat :=
  let dn_wo_year := dnWoYear display_name
  let dn_norm := dnNorm display_name
  let makes_sorted := sortByLenDesc known_makes
  let make_found := makes_sorted.find? (makeMatches dn_norm)
  let model :=
    match make_found with
    | some mk =>
      match stripMakeCI mk.toList dn_wo_year.toList with
      | some r => pyStrip ⟨r⟩
      | none => pyStrip dn_wo_year
    | none => dn_wo_year
  let model' := if model = "" then none else some model
  (make_found, model', displayYear display_name)

/-! ## Data model (`main.py`, `supabase_db.py`)

Timestamps persisted by the code are ISO strings produced by the injective
`iso` helper; they are modelled directly by the underlying wall-clock
second count (`Int`). -/

/-- The singleton `scrape_state` row. -/
structure CrawlState where
  last_fleet_signature : Option String
  last_run_at : Option Int
  last_mode : Option String
  last_completed_page : Option Int
deriving Repr, DecidableEq

/-- One entry of an entity's `notes_history`. -/
structure Note where
  captured_at : Int
  notes : String
deriving Repr, DecidableEq

/-- A persisted `member_cars` row. -/
structure Entity where
  car_id : Nat
  owner_username : Option String
  display_name : Option String
  make : Option String
  model : Option String
  model_year : Option Nat
  status : Option String
  sold_at : Option Int
  last_updated_at : Option Int
  last_updated_raw : Option String
  notes_current : Option String
  notes_history : Option (List Note)
  first_seen_at : Option Int
  last_seen_at : Option Int
  last_scraped_at : Option Int
deriving Repr, DecidableEq

/-- A partial update to a `member_cars` row (`db.update_car` payload).
`none` = field absent from the payload, `some v` = field set to `v`
(`some none` sets the column to SQL NULL). -/
structure CarPatch where
  owner_username : Option (Option String) := none
  display_name : Option (Option String) := none
  make : Option (Option String) := none
  model : Option (Option String) := none
  model_year : Option (Option Nat) := none
  status : Option (Option String) := none
  sold_at : Option (Option Int) := none
  last_updated_at : Option (Option Int) := none
  last_updated_raw : Option (Option String) := none
  notes_current : Option (Option String) := none
  notes_history : Option (Option (List Note)) := none
  first_seen_at : Option (Option Int) := none
  last_seen_at : Option (Option Int) := none
  last_scraped_at : Option (Option Int) := none
deriving Repr, DecidableEq

/-- Partial-field update semantics: only supplied fields change. -/
def applyPatch (e : Entity) (p : CarPatch) : Entity where
  car_id := e.car_id
  owner_username := p.owner_username.getD e.owner_username
  display_name := p.display_name.getD e.display_name
  make := p.make.getD e.make
  model := p.model.getD e.model
  model_year := p.model_year.getD e.model_year
  status := p.status.getD e.status
  sold_at := p.sold_at.getD e.sold_at
  last_updated_at := p.last_updated_at.getD e.last_updated_at
  last_updated_raw := p.last_updated_raw.getD e.last_updated_raw
  notes_current := p.notes_current.getD e.notes_current
  notes_history := p.notes_history.getD e.notes_history
  first_seen_at := p.first_seen_at.getD e.first_seen_at
  last_seen_at := p.last_seen_at.getD e.last_seen_at
  last_scraped_at := p.last_scraped_at.getD e.last_scraped_at

/-- A parsed listing row (`parsing.FleetRow`). -/
structure ListingRow where
  owner : String
  display_name : String
  car_id : Nat
  updated_raw : String
  updated_at_london : Option Int
  signature : String
deriving Repr, DecidableEq

/-- A parsed detail page (`pistonheads.CarDetails`). -/
structure CarDetails where
  ownership : Option String
  notes_text : String
deriving Repr, DecidableEq

/-- The write operation the reconciliation step issues for one row. -/
inductive WriteOp where
  /-- No database write (`continue` without touching `member_cars`). -/
  | skip
  /-- `db.upsert_car(row_to_insert)`. -/
  | upsert (e : Entity)
  /-- `db.update_car(car_id, patch)`. -/
  | patch (carId : Nat) (p : CarPatch)
deriving Repr, DecidableEq

/-- Observable actions of a run, in order. -/
inductive Event where
  /-- HTTP GET of listing page `p`. -/
  | fetchPage (p : Int)
  /-- HTTP GET of the detail page of `carId`. -/
  | fetchCar (carId : Nat)
  /-- `db.update_scrape_state(...)` with exactly the supplied fields
  (a `none` argument is omitted from the payload and leaves the
  persisted field untouched). -/
  | writeState (sig : Option String) (runAt : Option Int)
      (mode : Option String) (page : Option Int)
  /-- A `member_cars` write. -/
  | dbWrite (op : WriteOp)
deriving Repr, DecidableEq

/-- `db.update_scrape_state`: only non-`none` fields of the payload change. -/
def update_scrape_state (st : CrawlState) (sig : Option String)
    (runAt : Option Int) (mode : Option String) (page : Option Int) : CrawlState where
  last_fleet_signature := match sig with | some v => some v | none => st.last_fleet_signature
  last_run_at := match runAt with | some v => some v | none => st.last_run_at
  last_mode := match mode with | some v => some v | none => st.last_mode
  last_completed_page := match page with | some v => some v | none => st.last_completed_page

/-- The entity store (`member_cars` keyed by `car_id`). -/
def Store := Nat → Option Entity

def Store.set (s : Store) (id : Nat) (e : Entity) : Store :=
  fun j => if j = id then some e else s j

/-- Effect of a `WriteOp` on the store.  A patch of an absent row is a
no-op (SQL `UPDATE` matching nothing), though the code never issues one. -/
def applyCarWrite (s : Store) : WriteOp → Store
  | .skip => s
  | .upsert e => s.set e.car_id e
  | .patch id p =>
    match s id with
    | some e => s.set id (applyPatch e p)
    | none => s

/-- The environment a run observes: status and parse results of each
listing-page fetch, the vocabulary extracted from each listing page's HTML,
and status / soft-error flag / parsed details of each detail-page fetch.
(HTML itself is abstracted away; each field is the result of the
corresponding parser on the fetched body.) -/
structure Env where
  pageStatus : Int → Nat
  pageRows : Int → List ListingRow
  pageMakes : Int → List String
  carStatus : Nat → Nat
  carSoft : Nat → Bool
  carDetails : Nat → CarDetails

/-- Mutable state threaded through a run. -/
structure RunState where
  crawl : CrawlState
  store : Store
  trace : List Event
  firstSig : Option String

def RunState.addEvent (rs : RunState) (ev : Event) : RunState :=
  { rs with trace := rs.trace ++ [ev] }

/-- `known_makes.FALLBACK_MAKES` (only its being a fixed non-empty list
matters to the claims; the full list is reproduced for fidelity). -/
def FALLBACK_MAKES : List String :=
  ["AC", "Adams", "AJS", "Alfa Romeo", "Alpina", "Alpine", "Alvis", "Aprilia",
   "Ariel", "Ascari", "Aston Martin", "Audi", "Austin", "Austin Healey", "BAC",
   "Bedford", "Bentley", "Bitter", "BMW", "Bond", "Bowler", "Bristol", "BSA",
   "Buell", "Bugatti", "Buick", "Cadillac", "Caterham", "Chevrolet", "Chrysler",
   "Citroen", "Comma", "Dacia", "Daf", "Daihatsu", "Daimler", "Darrian",
   "Datsun", "Davrian", "Dax", "De Tomaso", "Delorean", "Dennis", "Dodge",
   "Ducati", "Evante", "Facel Vega", "Farbio", "Ferrari", "Fiat", "Fisher",
   "Ford", "Gardner Douglas", "GB Roadster", "Gilbern", "Ginetta", "GMC",
   "Gordon-Keeble", "Grinnell", "Gumpert", "Harley Davidson", "Hillman",
   "Holden", "Honda", "Hummer", "Husaberg", "Hyundai", "Indian", "Infiniti",
   "Iso Rivolta", "Isuzu", "Jaguar", "JBA Cars", "Jeep", "Jensen", "Kawasaki",
   "Kia", "Kit Cars", "Koenigsegg", "KTM", "Lada", "Lagonda", "Lamborghini",
   "Lancia", "Land Rover", "Laverda", "Lexus", "Leyland", "Locost", "Lola",
   "Lotus", "Marcos", "Marlin", "Maserati", "Matra", "Mazda", "McLaren",
   "Mercedes", "Mercury", "Messerschmidt", "MG", "MINI", "Mitsubishi",
   "Morgan", "Morris", "Mosler", "Moto Guzzi", "Moto Morini", "Motobi",
   "MV Agusta", "MZ", "Nissan", "Noble", "Oldsmobile", "Opel", "Other",
   "Pagani", "Panther", "Peugeot", "PGO", "Piaggio", "Polestar", "Pontiac",
   "Porsche", "Proton", "Racing Car", "Radical", "Range Rover", "Reliant",
   "Renault", "Riley", "Rolls Royce", "Rover", "Royal Enfield", "Saab",
   "Scott", "Seat", "Shelby", "Silk", "Simca", "Singer", "Skoda", "smart",
   "Spyker", "Strathcarron", "Subaru", "Sunbeam", "Suzuki", "Sylva", "Talbot",
   "Tatra", "Tesla", "Toyota", "Trabant", "TriBSA", "Trident", "Triton",
   "Triumph", "TVR", "Ultima", "Vanden Plas", "Vauxhall", "Velocette",
   "Venturi", "Vincent", "Volkswagen", "Volvo", "Westfield", "Wolseley",
   "Yamaha", "Zenos"]

/-! ## The orchestrator (`main.run`) -/

/-- `STOP_BEFORE_LONDON`: midnight, 1 January 2023, London wall clock. -/
def STOP_BEFORE_LONDON : Int := mkDT 2023 1 1 0 0

/-- `main._get_initial_resume_page`. -/
def get_initial_resume_page (st : CrawlState) : Int :=
  let last_mode := strLower (pyStrip (st.last_mode.getD ""))
  match st.last_completed_page with
  | some n => if last_mode = "initial" ∧ 1 ≤ n then n + 1 else 1
  | none => 1

/-- The per-row reconciliation block of `main.run` (lines 155–243):
ownership classification, then create / patch / no-op against the
existing entity. -/
def reconcile (row : ListingRow) (details : CarDetails)
    (existing : Option Entity) (now : Int) (known_makes : List String) : WriteOp :=
  let ownership := pyStrip (details.ownership.getD "")
  if ownership ≠ "Current Car" ∧ ownership ≠ "Previously Owned" then .skip else
  let mmy := parse_make_model_year row.display_name known_makes
  if ownership = "Previously Owned" then
    match existing with
    | none => .skip
    | some e =>
      if e.status ≠ some "Sold" then
        .patch row.car_id
          { status := some (some "Sold"), sold_at := some (some now),
            last_seen_at := some (some now), last_scraped_at := some (some now),
            last_updated_at := some row.updated_at_london,
            last_updated_raw := some (some row.updated_raw) }
      else
        .patch row.car_id
          { last_seen_at := some (some now), last_scraped_at := some (some now),
            last_updated_at := some row.updated_at_london,
            last_updated_raw := some (some row.updated_raw) }
  else
    match existing with
    | none =>
      let notes_text := if details.notes_text ≠ "" then some (pyStrip details.notes_text) else none
      .upsert
        { car_id := row.car_id, owner_username := some row.owner,
          display_name := some row.display_name,
          make := mmy.1, model := mmy.2.1, model_year := mmy.2.2,
          status := some "Current", sold_at := none,
          last_updated_at := row.updated_at_london,
          last_updated_raw := some row.updated_raw,
          notes_current := notes_text, notes_history := none,
          first_seen_at := some now, last_seen_at := some now,
          last_scraped_at := some now }
    | some e =>
      let p0 : CarPatch :=
        { owner_username := some (some row.owner),
          last_updated_at := some row.updated_at_london,
          last_updated_raw := some (some row.updated_raw),
          last_seen_at := some (some now), last_scraped_at := some (some now),
          status := some (some "Current"), sold_at := some none }
      let p1 := if e.display_name.getD "" ≠ row.display_name then
          { p0 with display_name := some (some row.display_name),
                    make := some mmy.1, model := some mmy.2.1,
                    model_year := some mmy.2.2 }
        else p0
      let new_notes := pyStrip details.notes_text
      let old_notes := pyStrip (e.notes_current.getD "")
      let p2 := if new_notes ≠ "" ∧ new_notes ≠ old_notes then
          let history := e.notes_history.getD []
          { p1 with notes_current := some (some new_notes),
                    notes_history := some (some (history ++ [⟨now, new_notes⟩])) }
        else p1
      .patch row.car_id p2

/-- A checkpoint: record the `db.update_scrape_state` call in the trace and
apply its partial-update semantics to the persisted `CrawlState`. -/
def writeCheckpoint (rs : RunState) (sig : Option String) (now : Int)
    (mode : String) (p : Int) : RunState :=
  let rs' := rs.addEvent (.writeState sig (some now) (some mode) (some p))
  { rs' with crawl := update_scrape_state rs'.crawl sig (some now) (some mode) (some p) }

/-- Result of processing the rows of one page. -/
inductive RowsResult where
  /-- Every row processed; fall through to the page checkpoint. -/
  | continueRun (rs : RunState)
  /-- Initial-mode historical cutoff hit: checkpoint written, run returns. -/
  | stopRun (rs : RunState)
  /-- `RuntimeError` raised (403 persisted after retries on a detail fetch). -/
  | fatalRun (rs : RunState)

def RowsResult.state : RowsResult → RunState
  | .continueRun rs => rs
  | .stopRun rs => rs
  | .fatalRun rs => rs

/-- The `for row in rows` body of `main.run` (lines 126–243). -/
def processRows (env : Env) (mode : String) (now : Int) (vocab : List String)
    (p : Int) : RunState → List ListingRow → RowsResult
  | rs, [] => .continueRun rs
  | rs, row :: rest =>
    if mode = "initial" ∧ (∃ t, row.updated_at_london = some t ∧ t < STOP_BEFORE_LONDON) then
      .stopRun (writeCheckpoint rs rs.firstSig now mode p)
    else
      let rs := rs.addEvent (.fetchCar row.car_id)
      if env.carStatus row.car_id = 403 then .fatalRun rs
      else if env.carStatus row.car_id = 404 then processRows env mode now vocab p rs rest
      else if env.carSoft row.car_id then processRows env mode now vocab p rs rest
      else
        let op := reconcile row (env.carDetails row.car_id) (rs.store row.car_id) now vocab
        let rs :=
          match op with
          | .skip => rs
          | _ => { rs.addEvent (.dbWrite op) with store := applyCarWrite rs.store op }
        processRows env mode now vocab p rs rest

/-- One `while True` iteration and its successors (`main.run`, lines 84–256),
with an explicit fuel bound on the number of listing-page fetches. -/
inductive Outcome where
  /-- Normal end: empty row page (`break`) . -/
  | finished
  /-- `return` from a stop condition (nightly signature or initial cutoff). -/
  | stopped
  /-- `RuntimeError` raised (5xx on a listing page, or persisted 403). -/
  | fatal
  /-- Fuel exhausted (the real loop would keep fetching). -/
  | fuelOut
deriving Repr, DecidableEq

/-- Outcome of fetching and handling one listing page. -/
inductive PageResult where
  /-- `RuntimeError`: 5xx on the listing fetch, or persisted 403 on a detail. -/
  | fatalPage
  /-- Empty row list: `break`, run ends normally. -/
  | finishedPage
  /-- A stop condition `return`ed (nightly signature or initial cutoff). -/
  | stoppedPage
  /-- Page completed and checkpointed; continue with the resolved vocabulary. -/
  | nextPage (vocab : List String)

/-- The vocabulary for this page: the one cached from a previous page if any,
else the one extracted from this page's HTML, else the static fallback. -/
def resolveVocab (env : Env) (p : Int) (km : Option (List String)) : List String :=
  match km with
  | some k => k
  | none => if env.pageMakes p ≠ [] then env.pageMakes p else FALLBACK_MAKES

/-- The truthiness filter Python applies to `first_row_signature_this_run`
when passing it to the page checkpoint (`x if x else None`). -/
def truthySig : Option String → Option String
  | some s => if s ≠ "" then some s else none
  | none => none

/-- Whether the nightly stop-scan fires: mode is nightly, the persisted stop
signature is a non-empty string, and some row of the page carries it.
(The scan runs over the whole page before any row is processed.) -/
def nightlyHit (mode : String) (stopSig : Option String) (rows : List ListingRow) : Prop :=
  mode = "nightly" ∧ ∃ s, stopSig = some s ∧ s ≠ "" ∧ rows.any (fun r => r.signature = s)

instance (mode : String) (stopSig : Option String) (rows : List ListingRow) :
    Decidable (nightlyHit mode stopSig rows) := by
  unfold nightlyHit
  infer_instance

/-- One iteration of the `while True` loop of `main.run` (lines 84–256). -/
def runPage (env : Env) (mode : String) (now : Int) (stopSig : Option String)
    (p : Int) (rs : RunState) (km : Option (List String)) : RunState × PageResult :=
  let rs1 := rs.addEvent (.fetchPage p)
  if 500 ≤ env.pageStatus p then (rs1, .fatalPage) else
  let vocab := resolveVocab env p km
  match env.pageRows p with
  | [] => (rs1, .finishedPage)
  | r0 :: rest =>
    let rs2 := if rs1.firstSig = none then { rs1 with firstSig := some r0.signature } else rs1
    if nightlyHit mode stopSig (r0 :: rest) then
      (writeCheckpoint rs2 rs2.firstSig now mode p, .stoppedPage)
    else
      match processRows env mode now vocab p rs2 (r0 :: rest) with
      | .fatalRun rs' => (rs', .fatalPage)
      | .stopRun rs' => (rs', .stoppedPage)
      | .continueRun rs' =>
        (writeCheckpoint rs' (truthySig rs'.firstSig) now mode p, .nextPage vocab)

def runLoop (env : Env) (mode : String) (now : Int) (stopSig : Option String) :
    Nat → Int → RunState → Option (List String) → RunState × Outcome
  | 0, _, rs, _ => (rs, .fuelOut)
  | fuel + 1, p, rs, km =>
    match runPage env mode now stopSig p rs km with
    | (rs', .fatalPage) => (rs', .fatal)
    | (rs', .finishedPage) => (rs', .finished)
    | (rs', .stoppedPage) => (rs', .stopped)
    | (rs', .nextPage vocab) => runLoop env mode now stopSig fuel (p + 1) rs' (some vocab)

/-- `main.run`: mode dispatch, stop-signature selection, resume page. -/
def run (env : Env) (mode : String) (st0 : CrawlState) (store0 : Store)
    (now : Int) (fuel : Nat) : RunState × Outcome :=
  let stopSig := if mode = "nightly" then st0.last_fleet_signature else none
  let p0 := if mode = "initial" then get_initial_resume_page st0 else 1
  runLoop env mode now stopSig fuel p0
    { crawl := st0, store := store0, trace := [], firstSig := none } none

/-! ## Helper lemmas -/

theorem pyStripList_eq_rdrop (l : List Char) :
    pyStripList l = List.rdropWhile isPySpace (List.dropWhile isPySpace l) := rfl

theorem dropWhile_rdropWhile_dropWhile (p : Char → Bool) (l : List Char) :
    List.dropWhile p (List.rdropWhile p (List.dropWhile p l)) =
      List.rdropWhile p (List.dropWhile p l) := by
  have hpre := List.rdropWhile_prefix p (List.dropWhile p l)
  obtain ⟨t, ht⟩ := hpre
  match hz : List.rdropWhile p (List.dropWhile p l) with
  | [] => simp
  | c :: cs =>
    rw [hz] at ht
    have hid := List.dropWhile_idempotent p l
    rw [← ht] at hid
    have hnp : ¬ p c = true := by
      intro hp
      rw [List.cons_append, List.dropWhile_cons, if_pos hp] at hid
      have hlen := congrArg List.length hid
      have hle := (List.dropWhile_suffix (l := cs ++ t) p).length_le
      simp at hlen hle
      omega
    rw [List.dropWhile_cons, if_neg hnp]

theorem pyStripList_idem (l : List Char) :
    pyStripList (pyStripList l) = pyStripList l := by
  rw [pyStripList_eq_rdrop, pyStripList_eq_rdrop,
    dropWhile_rdropWhile_dropWhile, List.rdropWhile_idempotent]

theorem pyStrip_idem (s : String) : pyStrip (pyStrip s) = pyStrip s := by
  show (⟨pyStripList (pyStripList s.toList)⟩ : String) = ⟨pyStripList s.toList⟩
  rw [pyStripList_idem]

/-- Every step of `processRows` only appends to the trace. -/
theorem processRows_trace (env : Env) (mode : String) (now : Int)
    (vocab : List String) (p : Int) :
    ∀ (rows : List ListingRow) (rs : RunState),
      ∃ tl, (processRows env mode now vocab p rs rows).state.trace = rs.trace ++ tl := by
  intro rows
  induction rows with
  | nil => exact fun rs => ⟨[], by simp [processRows, RowsResult.state]⟩
  | cons row rest ih =>
    intro rs
    unfold processRows
    split
    · exact ⟨[.writeState rs.firstSig (some now) (some mode) (some p)], rfl⟩
    · split
      · exact ⟨[.fetchCar row.car_id], rfl⟩
      · split
        · obtain ⟨tl, htl⟩ := ih (rs.addEvent (.fetchCar row.car_id))
          exact ⟨.fetchCar row.car_id :: tl, by rw [htl]; simp [RunState.addEvent]⟩
        · split
          · obtain ⟨tl, htl⟩ := ih (rs.addEvent (.fetchCar row.car_id))
            exact ⟨.fetchCar row.car_id :: tl, by rw [htl]; simp [RunState.addEvent]⟩
          · dsimp only [RunState.addEvent]
            cases hop : reconcile row (env.carDetails row.car_id) (rs.store row.car_id) now vocab with
              | skip =>
                obtain ⟨tl, htl⟩ := ih { rs with trace := rs.trace ++ [.fetchCar row.car_id] }
                exact ⟨.fetchCar row.car_id :: tl, by rw [htl]; simp⟩
              | upsert e =>
                obtain ⟨tl, htl⟩ := ih
                  { rs with trace := rs.trace ++ [.fetchCar row.car_id] ++ [.dbWrite (.upsert e)],
                            store := applyCarWrite rs.store (.upsert e) }
                exact ⟨.fetchCar row.car_id :: .dbWrite (.upsert e) :: tl, by rw [htl]; simp⟩
              | patch id pch =>
                obtain ⟨tl, htl⟩ := ih
                  { rs with trace := rs.trace ++ [.fetchCar row.car_id] ++ [.dbWrite (.patch id pch)],
                            store := applyCarWrite rs.store (.patch id pch) }
                exact ⟨.fetchCar row.car_id :: .dbWrite (.patch id pch) :: tl, by rw [htl]; simp⟩

theorem trace_ext_trans {t1 t2 t3 : List Event}
    (h1 : ∃ a, t2 = t1 ++ a) (h2 : ∃ b, t3 = t2 ++ b) : ∃ c, t3 = t1 ++ c := by
  obtain ⟨a, ha⟩ := h1
  obtain ⟨b, hb⟩ := h2
  exact ⟨a ++ b, by rw [hb, ha, List.append_assoc]⟩

@[simp] theorem addEvent_trace (rs : RunState) (ev : Event) :
    (rs.addEvent ev).trace = rs.trace ++ [ev] := rfl

@[simp] theorem firstSig_update_trace (rs : RunState) (c : Prop) [Decidable c] (x : Option String) :
    (if c then { rs with firstSig := x } else rs).trace = rs.trace := by
  split <;> rfl

@[simp] theorem writeCheckpoint_trace (rs : RunState) (sig : Option String)
    (now : Int) (mode : String) (p : Int) :
    (writeCheckpoint rs sig now mode p).trace =
      rs.trace ++ [.writeState sig (some now) (some mode) (some p)] := rfl

/-- `runPage` only appends to the trace. -/
theorem runPage_trace (env : Env) (mode : String) (now : Int)
    (stopSig : Option String) (p : Int) (rs : RunState) (km : Option (List String)) :
    ∃ tl, (runPage env mode now stopSig p rs km).1.trace = rs.trace ++ tl := by
  unfold runPage
  split
  · exact ⟨[.fetchPage p], rfl⟩
  · split
    · exact ⟨[.fetchPage p], rfl⟩
    · rename_i r0 rest hrows
      have h2 : ∃ a, (if (rs.addEvent (.fetchPage p)).firstSig = none
          then { rs.addEvent (.fetchPage p) with firstSig := some r0.signature }
          else rs.addEvent (.fetchPage p)).trace = rs.trace ++ a := by
        refine ⟨[.fetchPage p], ?_⟩
        rw [firstSig_update_trace, addEvent_trace]
      split
      · exact trace_ext_trans h2 ⟨[.writeState _ _ _ _], by rw [writeCheckpoint_trace]⟩
      · dsimp only
        have h3 := processRows_trace env mode now (resolveVocab env p km) p (r0 :: rest)
          (if (rs.addEvent (.fetchPage p)).firstSig = none
            then { rs.addEvent (.fetchPage p) with firstSig := some r0.signature }
            else rs.addEvent (.fetchPage p))
        rcases hpr : processRows env mode now (resolveVocab env p km) p
            (if (rs.addEvent (.fetchPage p)).firstSig = none
              then { rs.addEvent (.fetchPage p) with firstSig := some r0.signature }
              else rs.addEvent (.fetchPage p)) (r0 :: rest) with rs' | rs' | rs'
        all_goals rw [hpr] at h3
        all_goals dsimp only [RowsResult.state] at h3 ⊢
        · exact trace_ext_trans (trace_ext_trans h2 h3)
            ⟨[.writeState (truthySig rs'.firstSig) (some now) (some mode) (some p)],
              writeCheckpoint_trace rs' (truthySig rs'.firstSig) now mode p⟩
        · exact trace_ext_trans h2 h3
        · exact trace_ext_trans h2 h3

/-- Every step of `runLoop` only appends to the trace. -/
theorem runLoop_trace (env : Env) (mode : String) (now : Int) (stopSig : Option String) :
    ∀ (fuel : Nat) (p : Int) (rs : RunState) (km : Option (List String)),
      ∃ tl, (runLoop env mode now stopSig fuel p rs km).1.trace = rs.trace ++ tl := by
  intro fuel
  induction fuel with
  | zero => exact fun p rs km => ⟨[], by simp [runLoop]⟩
  | succ fuel ih =>
    intro p rs km
    obtain ⟨tl1, htl1⟩ := runPage_trace env mode now stopSig p rs km
    unfold runLoop
    split
    · rename_i rs' heq
      rw [heq] at htl1
      exact ⟨tl1, htl1⟩
    · rename_i rs' heq
      rw [heq] at htl1
      exact ⟨tl1, htl1⟩
    · rename_i rs' heq
      rw [heq] at htl1
      exact ⟨tl1, htl1⟩
    · rename_i rs' vocab heq
      rw [heq] at htl1
      exact trace_ext_trans ⟨tl1, htl1⟩ (ih (p + 1) rs' (some vocab))

theorem trace_head_trans {t1 t3 rs2t : List Event} {ev : Event}
    (h1 : rs2t = t1 ++ [ev]) (h2 : ∃ b, t3 = rs2t ++ b) : ∃ c, t3 = t1 ++ ev :: c := by
  obtain ⟨b, hb⟩ := h2
  exact ⟨b, by rw [hb, h1]; simp⟩

/-- The first event of a page iteration is the listing-page fetch. -/
theorem runPage_trace_head (env : Env) (mode : String) (now : Int)
    (stopSig : Option String) (p : Int) (rs : RunState) (km : Option (List String)) :
    ∃ tl, (runPage env mode now stopSig p rs km).1.trace = rs.trace ++ .fetchPage p :: tl := by
  unfold runPage
  split
  · exact ⟨[], by simp⟩
  · split
    · exact ⟨[], by simp⟩
    · rename_i r0 rest hrows
      have h1 : (if (rs.addEvent (.fetchPage p)).firstSig = none
          then { rs.addEvent (.fetchPage p) with firstSig := some r0.signature }
          else rs.addEvent (.fetchPage p)).trace = rs.trace ++ [.fetchPage p] := by
        rw [firstSig_update_trace, addEvent_trace]
      split
      · exact trace_head_trans h1 ⟨[.writeState _ _ _ _], by rw [writeCheckpoint_trace]⟩
      · dsimp only
        have h3 := processRows_trace env mode now (resolveVocab env p km) p (r0 :: rest)
          (if (rs.addEvent (.fetchPage p)).firstSig = none
            then { rs.addEvent (.fetchPage p) with firstSig := some r0.signature }
            else rs.addEvent (.fetchPage p))
        rcases hpr : processRows env mode now (resolveVocab env p km) p
            (if (rs.addEvent (.fetchPage p)).firstSig = none
              then { rs.addEvent (.fetchPage p) with firstSig := some r0.signature }
              else rs.addEvent (.fetchPage p)) (r0 :: rest) with rs' | rs' | rs'
        all_goals rw [hpr] at h3
        all_goals dsimp only [RowsResult.state] at h3 ⊢
        · exact trace_head_trans h1 (trace_ext_trans h3
            ⟨[.writeState (truthySig rs'.firstSig) (some now) (some mode) (some p)],
              writeCheckpoint_trace rs' (truthySig rs'.firstSig) now mode p⟩)
        · exact trace_head_trans h1 h3
        · exact trace_head_trans h1 h3

/-- The first event of a run with fuel for at least one page is the fetch of
the starting page. -/
theorem runLoop_trace_head (env : Env) (mode : String) (now : Int)
    (stopSig : Option String) (fuel : Nat) (p : Int) (rs : RunState)
    (km : Option (List String)) :
    ∃ tl, (runLoop env mode now stopSig (fuel + 1) p rs km).1.trace =
      rs.trace ++ .fetchPage p :: tl := by
  obtain ⟨tl1, htl1⟩ := runPage_trace_head env mode now stopSig p rs km
  show ∃ tl, (match runPage env mode now stopSig p rs km with
    | (rs', .fatalPage) => (rs', Outcome.fatal)
    | (rs', .finishedPage) => (rs', Outcome.finished)
    | (rs', .stoppedPage) => (rs', Outcome.stopped)
    | (rs', .nextPage vocab) =>
        runLoop env mode now stopSig fuel (p + 1) rs' (some vocab)).1.trace =
      rs.trace ++ .fetchPage p :: tl
  rcases hrp : runPage env mode now stopSig p rs km with ⟨rs', pr⟩
  rw [hrp] at htl1
  cases pr with
  | fatalPage => exact ⟨tl1, htl1⟩
  | finishedPage => exact ⟨tl1, htl1⟩
  | stoppedPage => exact ⟨tl1, htl1⟩
  | nextPage vocab =>
    obtain ⟨tl2, htl2⟩ := runLoop_trace env mode now stopSig fuel (p + 1) rs' (some vocab)
    exact ⟨tl1 ++ tl2, by rw [htl2, htl1]; simp⟩

/-! ## Claim theorems -/

/-- C2: an initial-mode run starts fetching at `last_completed_page + 1`
exactly when the persisted `last_mode` is `"initial"` and
`last_completed_page` is an integer ≥ 1, and at page 1 in every other case
(over the persistable `last_mode` values: null, `"initial"`, `"nightly"`);
after `last_completed_page = 5, last_mode = "initial"` the next initial run
begins at page 6; a nightly-mode run always starts at page 1. -/
theorem c2_initial_resume_iff (st : CrawlState)
    (hm : st.last_mode = none ∨ st.last_mode = some "initial" ∨ st.last_mode = some "nightly") :
    (∀ n : Int, st.last_completed_page = some n →
      get_initial_resume_page st =
        (if st.last_mode = some "initial" ∧ 1 ≤ n then n + 1 else 1)) ∧
    (st.last_completed_page = none → get_initial_resume_page st = 1) ∧
    (st.last_mode = some "initial" → st.last_completed_page = some 5 →
      get_initial_resume_page st = 6) ∧
    (∀ (env : Env) (store0 : Store) (now : Int) (fuel : Nat),
      (run env "initial" st store0 now (fuel + 1)).1.trace.head? =
        some (.fetchPage (get_initial_resume_page st))) ∧
    (∀ (env : Env) (store0 : Store) (now : Int) (fuel : Nat),
      (run env "nightly" st store0 now (fuel + 1)).1.trace.head? =
        some (.fetchPage 1)) := by
  have hmode : ∀ n : Int, st.last_completed_page = some n →
      get_initial_resume_page st =
        (if st.last_mode = some "initial" ∧ 1 ≤ n then n + 1 else 1) := by
    intro n hn
    have e1 : strLower (pyStrip "") = "" := by decide
    have e2 : strLower (pyStrip "initial") = "initial" := by decide
    have e3 : strLower (pyStrip "nightly") = "nightly" := by decide
    rcases hm with h | h | h <;> simp [get_initial_resume_page, h, hn, e1, e2, e3]
  refine ⟨hmode, ?_, ?_, ?_, ?_⟩
  · intro hn
    rcases hm with h | h | h <;> simp [get_initial_resume_page, h, hn]
  · intro h1 h5
    rw [hmode 5 h5, if_pos ⟨h1, by norm_num⟩]
    norm_num
  · intro env store0 now fuel
    obtain ⟨tl, htl⟩ := runLoop_trace_head env "initial"
      now (if "initial" = "nightly" then st.last_fleet_signature else none) fuel
      (if "initial" = "initial" then get_initial_resume_page st else 1)
      { crawl := st, store := store0, trace := [], firstSig := none } none
    unfold run
    simp only [reduceIte] at htl ⊢
    rw [htl]
    rfl
  · intro env store0 now fuel
    obtain ⟨tl, htl⟩ := runLoop_trace_head env "nightly"
      now (if "nightly" = "nightly" then st.last_fleet_signature else none) fuel
      (if "nightly" = "initial" then get_initial_resume_page st else 1)
      { crawl := st, store := store0, trace := [], firstSig := none } none
    unfold run
    simp only [reduceIte] at htl ⊢
    rw [htl]
    rfl

/-- C2 witness: concrete resumption at page 6 after a checkpoint at page 5. -/
theorem c2_initial_resume_iff_witness :
    get_initial_resume_page ⟨none, none, some "initial", some 5⟩ = 6 :=
  (c2_initial_resume_iff ⟨none, none, some "initial", some 5⟩
    (Or.inr (Or.inl rfl))).2.2.1 rfl rfl

/-- The `get_car` → reconcile → write cycle of one row, viewed at the single
entity slot the row's `car_id` addresses. -/
def reconcileEntity (row : ListingRow) (details : CarDetails) (now : Int)
    (vocab : List String) (oe : Option Entity) : Option Entity :=
  match reconcile row details oe now vocab with
  | .skip => oe
  | .upsert e => some e
  | .patch _ pch =>
    match oe with
    | some e => some (applyPatch e pch)
    | none => oe

def notesHistoryOf : Option Entity → Option (List Note)
  | some e => e.notes_history
  | none => none

/-- C9: a "Previously Owned" observation of a row with no persisted entity
issues no write at all: the Reconciler's operation is a no-op
and the entity slot stays absent. -/
theorem c9_prev_owned_never_creates (row : ListingRow) (details : CarDetails)
    (now : Int) (vocab : List String)
    (h : pyStrip (details.ownership.getD "") = "Previously Owned") :
    reconcile row details none now vocab = .skip ∧
    reconcileEntity row details now vocab none = none ∧
    ∀ s : Store, applyCarWrite s (reconcile row details none now vocab) = s := by
  have h1 : reconcile row details none now vocab = .skip := by
    unfold reconcile
    rw [h]
    simp
  exact ⟨h1, by unfold reconcileEntity; rw [h1], fun s => by rw [h1]; rfl⟩

/-- C9 witness: a concrete "Previously Owned" row against an empty store. -/
theorem c9_prev_owned_never_creates_witness :
    reconcile ⟨"u", "Porsche 911", 7, "09:49", none, "7|u|09:49"⟩
      ⟨some "Previously Owned", ""⟩ none 0 [] = .skip ∧
    reconcileEntity ⟨"u", "Porsche 911", 7, "09:49", none, "7|u|09:49"⟩
      ⟨some "Previously Owned", ""⟩ 0 [] none = none :=
  ⟨(c9_prev_owned_never_creates _ _ 0 [] (by decide)).1,
   (c9_prev_owned_never_creates _ _ 0 [] (by decide)).2.1⟩

/-- C4: once Sold, a further "Previously Owned" observation patches exactly
the four refresh fields and leaves `sold_at` (and everything else)
unchanged; a "Current Car" observation of any existing entity forces
`status = Current` and `sold_at = null`, whatever the prior status. -/
theorem c4_sold_refresh_and_resurrection :
    (∀ (row : ListingRow) (details : CarDetails) (e : Entity) (now : Int)
        (vocab : List String),
      pyStrip (details.ownership.getD "") = "Previously Owned" →
      e.status = some "Sold" →
      reconcileEntity row details now vocab (some e) =
        some { e with last_seen_at := some now, last_scraped_at := some now,
                      last_updated_at := row.updated_at_london,
                      last_updated_raw := some row.updated_raw }) ∧
    (∀ (row : ListingRow) (details : CarDetails) (e : Entity) (now : Int)
        (vocab : List String),
      pyStrip (details.ownership.getD "") = "Current Car" →
      ∃ e', reconcileEntity row details now vocab (some e) = some e' ∧
        e'.status = some "Current" ∧ e'.sold_at = none) := by
  constructor
  · intro row details e now vocab hpo hsold
    unfold reconcileEntity reconcile
    rw [hpo]
    simp [hsold, applyPatch]
  · intro row details e now vocab hcc
    unfold reconcileEntity reconcile
    rw [hcc]
    refine ⟨_, rfl, ?_, ?_⟩ <;>
      simp only [applyPatch] <;> split <;> (try split) <;> rfl

/-- C4 witness: a concrete Sold entity refreshed by "Previously Owned", and a
concrete Sold entity resurrected by "Current Car". -/
theorem c4_sold_refresh_and_resurrection_witness :
    (reconcileEntity ⟨"u", "Porsche 911", 7, "09:49", some 100, "7|u|09:49"⟩
        ⟨some "Previously Owned", ""⟩ 50 []
        (some ⟨7, some "u", some "Porsche 911", none, none, none, some "Sold",
          some 10, none, none, none, none, some 1, some 1, some 1⟩) =
      some ⟨7, some "u", some "Porsche 911", none, none, none, some "Sold",
        some 10, some 100, some "09:49", none, none, some 1, some 50, some 50⟩) ∧
    (∃ e', reconcileEntity ⟨"u", "Porsche 911", 7, "09:49", some 100, "7|u|09:49"⟩
        ⟨some "Current Car", ""⟩ 50 []
        (some ⟨7, some "u", some "Porsche 911", none, none, none, some "Sold",
          some 10, none, none, none, none, some 1, some 1, some 1⟩) = some e' ∧
      e'.status = some "Current" ∧ e'.sold_at = none) :=
  ⟨(c4_sold_refresh_and_resurrection.1 _ _ _ 50 [] (by decide) rfl),
   (c4_sold_refresh_and_resurrection.2 _ _ _ 50 [] (by decide))⟩

/-- C8: reconciling the same `ListingRow` and `DetailInfo` against the same
entity twice is idempotent on `notes_history`: the second application appends
nothing (whatever "now" timestamps the two applications use), because an
append happens only when the trimmed observed notes are non-empty and differ
from the stored trimmed `notes_current`. -/
theorem c8_notes_history_idempotent (row : ListingRow) (details : CarDetails)
    (now now2 : Int) (vocab : List String) (oe : Option Entity) :
    notesHistoryOf (reconcileEntity row details now2 vocab
        (reconcileEntity row details now vocab oe)) =
      notesHistoryOf (reconcileEntity row details now vocab oe) ∧
    ((notesHistoryOf (reconcileEntity row details now2 vocab
        (reconcileEntity row details now vocab oe))).getD []).length =
      ((notesHistoryOf (reconcileEntity row details now vocab oe)).getD []).length := by
  have hes : pyStrip "" = "" := by decide
  have hpoIf : ¬ (("Previously Owned" : String) ≠ "Current Car" ∧
      ("Previously Owned" : String) ≠ "Previously Owned") := by decide
  have hpoEq : ("Previously Owned" : String) = "Previously Owned" := rfl
  have hccIf : ¬ (("Current Car" : String) ≠ "Current Car" ∧
      ("Current Car" : String) ≠ "Previously Owned") := by decide
  have hccPo : ¬ (("Current Car" : String) = "Previously Owned") := by decide
  have L3 : ∀ (oe' : Option Entity) (t : Int),
      pyStrip (details.ownership.getD "") ≠ "Current Car" →
      pyStrip (details.ownership.getD "") ≠ "Previously Owned" →
      reconcileEntity row details t vocab oe' = oe' := by
    intro oe' t h1 h2
    unfold reconcileEntity reconcile
    rw [if_pos ⟨h1, h2⟩]
  have L2 : ∀ (e1 : Entity) (t : Int),
      pyStrip (details.ownership.getD "") = "Previously Owned" →
      notesHistoryOf (reconcileEntity row details t vocab (some e1)) = e1.notes_history := by
    intro e1 t hpo
    unfold reconcileEntity reconcile
    rw [hpo, if_neg hpoIf, if_pos hpoEq]
    dsimp only
    by_cases hs : e1.status = some "Sold"
    · rw [if_neg (fun h => h hs)]
      rfl
    · rw [if_pos hs]
      rfl
  have L1 : ∀ (e1 : Entity) (t : Int),
      pyStrip (details.ownership.getD "") = "Current Car" →
      (pyStrip (e1.notes_current.getD "") = pyStrip details.notes_text ∨
        pyStrip details.notes_text = "") →
      notesHistoryOf (reconcileEntity row details t vocab (some e1)) = e1.notes_history := by
    intro e1 t hcc hdisj
    unfold reconcileEntity reconcile
    rw [hcc, if_neg hccIf, if_neg hccPo]
    simp only [notesHistoryOf, applyPatch]
    split
    · rename_i hn2
      rcases hdisj with h | h
      · exact absurd h.symm hn2.2
      · exact absurd h hn2.1
    · split <;> rfl
  have main : notesHistoryOf (reconcileEntity row details now2 vocab
      (reconcileEntity row details now vocab oe)) =
      notesHistoryOf (reconcileEntity row details now vocab oe) := by
    by_cases hcc : pyStrip (details.ownership.getD "") = "Current Car"
    · cases oe with
      | none =>
        obtain ⟨e1, he1, hnc⟩ : ∃ e1,
            reconcileEntity row details now vocab none = some e1 ∧
            e1.notes_current = (if details.notes_text ≠ ""
              then some (pyStrip details.notes_text) else none) := by
          unfold reconcileEntity reconcile
          rw [hcc, if_neg hccIf, if_neg hccPo]
          exact ⟨_, rfl, rfl⟩
        rw [he1]
        refine L1 e1 now2 hcc ?_
        by_cases hnt : details.notes_text = ""
        · exact Or.inr (by rw [hnt, hes])
        · refine Or.inl ?_
          rw [hnc, if_pos hnt]
          exact pyStrip_idem details.notes_text
      | some e =>
        obtain ⟨e1, he1, hnc⟩ : ∃ e1,
            reconcileEntity row details now vocab (some e) = some e1 ∧
            e1.notes_current = (if pyStrip details.notes_text ≠ "" ∧
                pyStrip details.notes_text ≠ pyStrip (e.notes_current.getD "")
              then some (pyStrip details.notes_text) else e.notes_current) := by
          unfold reconcileEntity reconcile
          rw [hcc, if_neg hccIf, if_neg hccPo]
          refine ⟨_, rfl, ?_⟩
          simp only [applyPatch]
          split <;> (try split) <;> simp [*]
        rw [he1]
        refine L1 e1 now2 hcc ?_
        by_cases hn1 : pyStrip details.notes_text ≠ "" ∧
            pyStrip details.notes_text ≠ pyStrip (e.notes_current.getD "")
        · rw [hnc, if_pos hn1]
          exact Or.inl (pyStrip_idem details.notes_text)
        · rw [not_and_or, not_not, not_not] at hn1
          rcases hn1 with h | h
          · exact Or.inr h
          · rw [hnc, if_neg (by rw [not_and_or, not_not, not_not]; exact Or.inr h)]
            exact Or.inl h.symm
    · by_cases hpo : pyStrip (details.ownership.getD "") = "Previously Owned"
      · cases oe with
        | none =>
          have hn : reconcileEntity row details now vocab none = none := by
            unfold reconcileEntity reconcile
            rw [hpo, if_neg hpoIf, if_pos hpoEq]
          rw [hn]
          have hn2 : reconcileEntity row details now2 vocab none = none := by
            unfold reconcileEntity reconcile
            rw [hpo, if_neg hpoIf, if_pos hpoEq]
          rw [hn2]
        | some e =>
          obtain ⟨e1, he1⟩ : ∃ e1,
              reconcileEntity row details now vocab (some e) = some e1 := by
            unfold reconcileEntity reconcile
            rw [hpo, if_neg hpoIf, if_pos hpoEq]
            dsimp only
            by_cases hs : e.status = some "Sold"
            · rw [if_neg (fun h => h hs)]
              exact ⟨_, rfl⟩
            · rw [if_pos hs]
              exact ⟨_, rfl⟩
          rw [he1]
          exact L2 e1 now2 hpo
      · rw [L3 oe now hcc hpo, L3 oe now2 hcc hpo]
  exact ⟨main, by rw [main]⟩

theorem strMk_toList (s : String) : (⟨s.toList⟩ : String) = s := rfl

theorem strLower_toList (s : String) : (strLower s).toList = s.toList.map lowerC := rfl

theorem string_length_eq_toList (s : String) : s.length = s.toList.length := rfl

theorem dnWoYear_stripped (dn : String) : pyStrip (dnWoYear dn) = dnWoYear dn := by
  unfold dnWoYear
  split <;> exact pyStrip_idem _

/-- Consuming a case-insensitive pattern that is the lower-casing of the
whole input succeeds and leaves nothing. -/
theorem matchCI_all (s : List Char) : matchCI (s.map lowerC) s = some [] := by
  induction s with
  | nil => rfl
  | cons c cs ih => simp [matchCI, ih]

theorem mem_insertByLen {x a : String} {l : List String} :
    x ∈ insertByLen a l ↔ x = a ∨ x ∈ l := by
  induction l with
  | nil => simp [insertByLen]
  | cons b t ih =>
    unfold insertByLen
    split
    · simp
    · simp only [List.mem_cons, ih]
      tauto

theorem mem_sortByLenDesc {x : String} {l : List String} :
    x ∈ sortByLenDesc l ↔ x ∈ l := by
  induction l with
  | nil => simp [sortByLenDesc]
  | cons a t ih =>
    unfold sortByLenDesc
    simp only [mem_insertByLen, ih, List.mem_cons]

theorem pairwise_insertByLen {a : String} {l : List String}
    (h : l.Pairwise (fun x y => y.length ≤ x.length)) :
    (insertByLen a l).Pairwise (fun x y => y.length ≤ x.length) := by
  induction l with
  | nil => simp [insertByLen]
  | cons b t ih =>
    rcases List.pairwise_cons.mp h with ⟨hb, ht⟩
    unfold insertByLen
    split
    · rename_i hle
      refine List.pairwise_cons.mpr ⟨?_, h⟩
      intro x hx
      rcases List.mem_cons.mp hx with rfl | hxt
      · exact hle
      · exact le_trans (hb x hxt) hle
    · rename_i hgt
      refine List.pairwise_cons.mpr ⟨?_, ih ht⟩
      intro x hx
      rcases mem_insertByLen.mp hx with rfl | hxt
      · omega
      · exact hb x hxt

theorem pairwise_sortByLenDesc (l : List String) :
    (sortByLenDesc l).Pairwise (fun x y => y.length ≤ x.length) := by
  induction l with
  | nil => simp [sortByLenDesc]
  | cons a t ih => exact pairwise_insertByLen ih

/-- `find?` on a `Pairwise`-ordered list returns `e` when `e` matches and
every matching element the order places no later than `e` is `e` itself. -/
theorem find?_of_pairwise {α : Type} (le' : α → α → Prop) (pred : α → Bool) :
    ∀ (l : List α) (e : α), l.Pairwise le' → e ∈ l → pred e = true →
      (∀ x ∈ l, le' x e → pred x = true → x = e) → l.find? pred = some e := by
  intro l
  induction l with
  | nil => intro e _ he; exact absurd he (List.not_mem_nil e)
  | cons a t ih =>
    intro e hpw he hpe hkey
    by_cases hae : a = e
    · subst hae
      exact List.find?_cons_of_pos t hpe
    · have het : e ∈ t := by
        rcases List.mem_cons.mp he with h | h
        · exact absurd h.symm hae
        · exact h
      have hpa : ¬ pred a = true := by
        intro hp
        exact hae (hkey a (List.mem_cons_self a t) ((List.pairwise_cons.mp hpw).1 e het) hp)
      rw [List.find?_cons_of_neg t hpa]
      exact ih e (List.pairwise_cons.mp hpw).2 het hpe
        (fun x hx => hkey x (List.mem_cons_of_mem a hx))

/-- C5 counterexample: a display string exactly equal to a vocabulary entry.
The claim predicts `(some "Porsche", none, none)`, but the splitter returns
the entry itself as `sub_label`, because the prefix-removal pattern
`^entry\s+` demands whitespace after the entry and so removes nothing. -/
theorem c5_exact_match_counterexample :
    parse_make_model_year "Porsche" ["Porsche"] =
      (some "Porsche", some "Porsche", none) ∧
    (parse_make_model_year "Porsche" ["Porsche"]).2.1 ≠ none := by
  refine ⟨rfl, ?_⟩
  intro h
  rw [(rfl : parse_make_model_year "Porsche" ["Porsche"] =
    (some "Porsche", some "Porsche", none))] at h
  exact Option.noConfusion h

/-- C5 amended: (i) every category the splitter returns is a vocabulary
entry that either equals the normalised year-free display exactly or is
followed by a space in it (so no other string matches an entry); (ii) any
such matching entry makes the category non-null; (iii) on an exact
(case-insensitive, whitespace-canonical) match against a vocabulary with
case-insensitively distinct entries, the splitter returns that entry as
category and the year-stripped display itself — not null — as
`sub_label`. -/
theorem c5_name_splitter_amended :
    (∀ (dn : String) (vocab : List String) (c : String),
      (parse_make_model_year dn vocab).1 = some c →
      c ∈ vocab ∧ (dnNorm dn = strLower c ∨
        (((strLower c).toList ++ [' ']).isPrefixOf (dnNorm dn).toList))) ∧
    (∀ (dn : String) (vocab : List String) (e : String), e ∈ vocab →
      makeMatches (dnNorm dn) e = true →
      ∃ c, (parse_make_model_year dn vocab).1 = some c) ∧
    (∀ (dn : String) (vocab : List String) (e : String),
      (∀ a ∈ vocab, ∀ b ∈ vocab, strLower a = strLower b → a = b) →
      e ∈ vocab → e ≠ "" →
      squeezeSpaces (dnWoYear dn).toList = (dnWoYear dn).toList →
      dnNorm dn = strLower e →
      (parse_make_model_year dn vocab).1 = some e ∧
      (parse_make_model_year dn vocab).2.1 = some (dnWoYear dn)) := by
  refine ⟨?_, ?_, ?_⟩
  · intro dn vocab c hc
    have hfind : (sortByLenDesc vocab).find? (makeMatches (dnNorm dn)) = some c := hc
    have hmem : c ∈ sortByLenDesc vocab := List.mem_of_find?_eq_some hfind
    have hmem' : c ∈ vocab := mem_sortByLenDesc.mp hmem
    have hpred := List.find?_some hfind
    unfold makeMatches at hpred
    simp only [decide_eq_true_eq] at hpred
    exact ⟨hmem', hpred⟩
  · intro dn vocab e he hme
    rcases hf : (sortByLenDesc vocab).find? (makeMatches (dnNorm dn)) with _ | c
    · rw [List.find?_eq_none] at hf
      exact absurd hme (hf e (mem_sortByLenDesc.mpr he))
    · exact ⟨c, hf⟩
  · intro dn vocab e hdist he hene hcanon hnorm
    have hstr : pyStrip (dnWoYear dn) = dnWoYear dn := dnWoYear_stripped dn
    have hdnn : dnNorm dn = strLower (dnWoYear dn) := by
      unfold dnNorm
      rw [hcanon, strMk_toList, hstr]
    have hlow : strLower (dnWoYear dn) = strLower e := by rw [← hdnn, hnorm]
    have hmaplow : (dnWoYear dn).toList.map lowerC = e.toList.map lowerC := by
      have := congrArg String.toList hlow
      rwa [strLower_toList, strLower_toList] at this
    have hlen : (dnWoYear dn).toList.length = e.toList.length := by
      have := congrArg List.length hmaplow
      simpa using this
    -- the sorted scan stops exactly at `e`
    have hpe : makeMatches (dnNorm dn) e = true := by
      unfold makeMatches
      simp only [Bool.decide_or, Bool.or_eq_true, decide_eq_true_eq]
      exact Or.inl hnorm
    have hkey : ∀ x ∈ sortByLenDesc vocab, e.length ≤ x.length →
        makeMatches (dnNorm dn) x = true → x = e := by
      intro x hx hlex hmx
      have hxv : x ∈ vocab := mem_sortByLenDesc.mp hx
      unfold makeMatches at hmx
      simp only [Bool.decide_or, Bool.or_eq_true, decide_eq_true_eq] at hmx
      rcases hmx with h | h
      · exact hdist x hxv e he (by rw [← h, hnorm])
      · exfalso
        have hpre := List.isPrefixOf_iff_prefix.mp h
        have hple := hpre.length_le
        simp only [List.length_append, List.length_map, List.length_cons,
          List.length_nil] at hple
        have h1 : (dnNorm dn).toList.length = e.toList.length := by
          rw [hnorm, strLower_toList]
          simp
        have h2 : (strLower x).toList.length = x.toList.length := by
          rw [strLower_toList]
          simp
        rw [string_length_eq_toList, string_length_eq_toList] at hlex
        omega
    have hfind : (sortByLenDesc vocab).find? (makeMatches (dnNorm dn)) = some e :=
      find?_of_pairwise _ _ (sortByLenDesc vocab) e (pairwise_sortByLenDesc vocab)
        (mem_sortByLenDesc.mpr he) hpe hkey
    have hne : dnWoYear dn ≠ "" := by
      intro h0
      rw [h0] at hlen
      have he0 : e.toList = [] := List.length_eq_zero.mp (by simpa using hlen.symm)
      exact hene (by rw [← strMk_toList e, he0])
    have hstrip : stripMakeCI e.toList (dnWoYear dn).toList = none := by
      unfold stripMakeCI
      rw [← hmaplow, matchCI_all]
      rfl
    constructor
    · exact hfind
    · unfold parse_make_model_year
      simp only [hfind, hstrip, hstr]
      rw [if_neg hne]

/-- C5 amended witness: the exact case-insensitive match `"PORSCHE"` against
the vocabulary `["Porsche"]` yields that entry as category and the display
string itself as `sub_label`. -/
theorem c5_name_splitter_amended_witness :
    (parse_make_model_year "PORSCHE" ["Porsche"]).1 = some "Porsche" ∧
    (parse_make_model_year "PORSCHE" ["Porsche"]).2.1 = some "PORSCHE" := by
  have h := c5_name_splitter_amended.2.2 "PORSCHE" ["Porsche"] "Porsche"
    (by decide) (by decide) (by decide) (by decide) (by decide)
  exact ⟨h.1, h.2.trans rfl⟩

/-! ## C1: the nightly stop -/

/-- A listing row of the §8 simulated two-page listing. -/
def c1Row (id : Nat) (sig : String) : ListingRow :=
  { owner := "u", display_name := "Porsche 911", car_id := id,
    updated_raw := "09:49", updated_at_london := some (mkDT 2025 6 11 9 49),
    signature := sig }

/-- §8 scenario: page 1's 3rd row carries the persisted stop signature
`"S"`; page 2 exists; every detail page would answer 200/"Current Car". -/
def c1Env : Env :=
  { pageStatus := fun _ => 200,
    pageRows := fun p =>
      if p = 1 then [c1Row 1 "A", c1Row 2 "B", c1Row 3 "S"]
      else if p = 2 then [c1Row 4 "D"] else [],
    pageMakes := fun _ => ["Porsche"],
    carStatus := fun _ => 200,
    carSoft := fun _ => false,
    carDetails := fun _ => { ownership := some "Current Car", notes_text := "" } }

def c1State : CrawlState :=
  { last_fleet_signature := some "S", last_run_at := none,
    last_mode := some "nightly", last_completed_page := some 7 }

/-- C1 counterexample: in the §8 scenario the run processes ZERO rows of
page 1 — the whole-page stop-scan runs before any row processing — so the
trace holds no detail fetch at all, contradicting the claim that the first
2 rows are processed.  The persisted fields themselves match the claim
(head signature, run timestamp, mode "nightly"). -/
theorem c1_nightly_stop_counterexample :
    (run c1Env "nightly" c1State (fun _ => none) 0 5).1.trace =
      [.fetchPage 1, .writeState (some "A") (some 0) (some "nightly") (some 1)] ∧
    (run c1Env "nightly" c1State (fun _ => none) 0 5).2 = .stopped ∧
    Event.fetchCar 1 ∉ (run c1Env "nightly" c1State (fun _ => none) 0 5).1.trace ∧
    Event.fetchCar 2 ∉ (run c1Env "nightly" c1State (fun _ => none) 0 5).1.trace ∧
    (run c1Env "nightly" c1State (fun _ => none) 0 5).1.crawl =
      { last_fleet_signature := some "A", last_run_at := some 0,
        last_mode := some "nightly", last_completed_page := some 1 } := by
  refine ⟨rfl, rfl, ?_, ?_, rfl⟩ <;> decide

/-- C1 amended: when a nightly run with a non-empty persisted stop signature
fetches a page containing a row with that signature, it checks the whole
page BEFORE processing any row, persists `last_fleet_signature` = the head
signature (the first row seen in the run, or this page's first row if none
was seen yet), `last_run_at`, `last_mode = "nightly"`,
`last_completed_page = p`, and terminates: no row of the page — not even
those preceding the match — is processed, no detail fetch is issued, and no
further listing page is fetched.  In the §8 scenario 0 rows (not 2) of
page 1 are processed. -/
theorem c1_nightly_stop_amended (env : Env) (now : Int) (s : String)
    (p : Int) (rs : RunState) (km : Option (List String)) (r0 : ListingRow)
    (rest : List ListingRow)
    (hs : s ≠ "")
    (hok : env.pageStatus p < 500)
    (hrows : env.pageRows p = r0 :: rest)
    (hhit : (r0 :: rest).any (fun r => r.signature = s)) :
    (runPage env "nightly" now (some s) p rs km).1.trace =
      rs.trace ++ [.fetchPage p,
        .writeState (some (rs.firstSig.getD r0.signature)) (some now)
          (some "nightly") (some p)] ∧
    (runPage env "nightly" now (some s) p rs km).1.store = rs.store ∧
    (runPage env "nightly" now (some s) p rs km).1.crawl =
      update_scrape_state rs.crawl (some (rs.firstSig.getD r0.signature))
        (some now) (some "nightly") (some p) ∧
    (runPage env "nightly" now (some s) p rs km).2 = .stoppedPage ∧
    (∀ fuel, (runLoop env "nightly" now (some s) (fuel + 1) p rs km).2 = .stopped ∧
      (runLoop env "nightly" now (some s) (fuel + 1) p rs km).1.trace =
        (runPage env "nightly" now (some s) p rs km).1.trace) := by
  have hhit' : nightlyHit "nightly" (some s) (r0 :: rest) := ⟨rfl, s, rfl, hs, hhit⟩
  have hrp : runPage env "nightly" now (some s) p rs km =
      (writeCheckpoint
        (if (rs.addEvent (.fetchPage p)).firstSig = none
          then { rs.addEvent (.fetchPage p) with firstSig := some r0.signature }
          else rs.addEvent (.fetchPage p))
        (if (rs.addEvent (.fetchPage p)).firstSig = none
          then { rs.addEvent (.fetchPage p) with firstSig := some r0.signature }
          else rs.addEvent (.fetchPage p)).firstSig now "nightly" p, .stoppedPage) := by
    unfold runPage
    rw [if_neg (by omega), hrows]
    dsimp only
    rw [if_pos hhit']
  have hfs : (if (rs.addEvent (.fetchPage p)).firstSig = none
      then { rs.addEvent (.fetchPage p) with firstSig := some r0.signature }
      else rs.addEvent (.fetchPage p)).firstSig = some (rs.firstSig.getD r0.signature) := by
    rcases h : rs.firstSig with _ | h0 <;>
      simp [RunState.addEvent, h]
  refine ⟨?_, ?_, ?_, ?_, ?_⟩
  · rw [hrp, writeCheckpoint_trace, hfs]
    rcases h : rs.firstSig with _ | h0 <;> simp [RunState.addEvent, h]
  · rw [hrp]
    show (writeCheckpoint _ _ _ _ _).store = rs.store
    unfold writeCheckpoint
    rcases h : rs.firstSig with _ | h0 <;> simp [RunState.addEvent, h]
  · rw [hrp]
    show (writeCheckpoint _ _ _ _ _).crawl = _
    unfold writeCheckpoint
    rw [hfs]
    rcases h : rs.firstSig with _ | h0 <;> simp [RunState.addEvent, h]
  · rw [hrp]
  · intro fuel
    constructor
    · show (match runPage env "nightly" now (some s) p rs km with
        | (rs', .fatalPage) => (rs', Outcome.fatal)
        | (rs', .finishedPage) => (rs', Outcome.finished)
        | (rs', .stoppedPage) => (rs', Outcome.stopped)
        | (rs', .nextPage vocab) =>
            runLoop env "nightly" now (some s) fuel (p + 1) rs' (some vocab)).2 =
        Outcome.stopped
      rw [hrp]
    · show (match runPage env "nightly" now (some s) p rs km with
        | (rs', .fatalPage) => (rs', Outcome.fatal)
        | (rs', .finishedPage) => (rs', Outcome.finished)
        | (rs', .stoppedPage) => (rs', Outcome.stopped)
        | (rs', .nextPage vocab) =>
            runLoop env "nightly" now (some s) fuel (p + 1) rs' (some vocab)).1.trace =
        (runPage env "nightly" now (some s) p rs km).1.trace
      rw [hrp]

/-- C1 amended witness: the amended behaviour on the §8 environment. -/
theorem c1_nightly_stop_amended_witness :
    (runPage c1Env "nightly" 0 (some "S") 1
        { crawl := c1State, store := fun _ => none, trace := [], firstSig := none }
        none).1.trace =
      [.fetchPage 1, .writeState (some "A") (some 0) (some "nightly") (some 1)] ∧
    (runPage c1Env "nightly" 0 (some "S") 1
        { crawl := c1State, store := fun _ => none, trace := [], firstSig := none }
        none).2 = .stoppedPage := by
  have h := c1_nightly_stop_amended c1Env 0 "S" 1
    { crawl := c1State, store := fun _ => none, trace := [], firstSig := none }
    none (c1Row 1 "A") [c1Row 2 "B", c1Row 3 "S"]
    (by decide) (by decide) rfl (by decide)
  exact ⟨h.1, h.2.2.2.1⟩

/-! ## C7: the initial-mode historical cutoff -/

/-- When the cutoff test does not fire, the row's detail page is fetched:
the first event added for the row is its detail-page GET. -/
theorem processRows_cons_fetch (env : Env) (mode : String) (now : Int)
    (vocab : List String) (p : Int) (rs : RunState) (row : ListingRow)
    (rest : List ListingRow)
    (hno : ¬ (mode = "initial" ∧
      ∃ t, row.updated_at_london = some t ∧ t < STOP_BEFORE_LONDON)) :
    ∃ tl, (processRows env mode now vocab p rs (row :: rest)).state.trace =
      rs.trace ++ .fetchCar row.car_id :: tl := by
  unfold processRows
  rw [if_neg hno]
  split
  · exact ⟨[], by simp [RunState.addEvent, RowsResult.state]⟩
  · split
    · obtain ⟨tl, htl⟩ := processRows_trace env mode now vocab p rest
        (rs.addEvent (.fetchCar row.car_id))
      exact ⟨tl, by rw [htl]; simp [RunState.addEvent]⟩
    · split
      · obtain ⟨tl, htl⟩ := processRows_trace env mode now vocab p rest
          (rs.addEvent (.fetchCar row.car_id))
        exact ⟨tl, by rw [htl]; simp [RunState.addEvent]⟩
      · dsimp only [RunState.addEvent]
        cases hop : reconcile row (env.carDetails row.car_id) (rs.store row.car_id) now vocab with
        | skip =>
          obtain ⟨tl, htl⟩ := processRows_trace env mode now vocab p rest
            { rs with trace := rs.trace ++ [.fetchCar row.car_id] }
          exact ⟨tl, by rw [htl]; simp⟩
        | upsert e =>
          obtain ⟨tl, htl⟩ := processRows_trace env mode now vocab p rest
            { rs with trace := rs.trace ++ [.fetchCar row.car_id] ++ [.dbWrite (.upsert e)],
                      store := applyCarWrite rs.store (.upsert e) }
          exact ⟨.dbWrite (.upsert e) :: tl, by rw [htl]; simp⟩
        | patch id pch =>
          obtain ⟨tl, htl⟩ := processRows_trace env mode now vocab p rest
            { rs with trace := rs.trace ++ [.fetchCar row.car_id] ++ [.dbWrite (.patch id pch)],
                      store := applyCarWrite rs.store (.patch id pch) }
          exact ⟨.dbWrite (.patch id pch) :: tl, by rw [htl]; simp⟩

/-- C7: in initial mode a row triggers the cutoff termination exactly when
its normalised timestamp is non-null and strictly earlier than
`STOP_BEFORE_LONDON`: then the run writes one final checkpoint and stops
without fetching the row's detail page; a null timestamp (and a timestamp at
or after the cutoff) never triggers the stop — the row is processed
normally, beginning with its detail fetch. -/
theorem c7_cutoff_iff (env : Env) (now : Int) (vocab : List String)
    (p : Int) (rs : RunState) (row : ListingRow) (rest : List ListingRow) :
    ((∃ t, row.updated_at_london = some t ∧ t < STOP_BEFORE_LONDON) →
      processRows env "initial" now vocab p rs (row :: rest) =
        .stopRun (writeCheckpoint rs rs.firstSig now "initial" p)) ∧
    (row.updated_at_london = none →
      ∃ tl, (processRows env "initial" now vocab p rs (row :: rest)).state.trace =
        rs.trace ++ .fetchCar row.car_id :: tl) ∧
    (∀ t, row.updated_at_london = some t → ¬ t < STOP_BEFORE_LONDON →
      ∃ tl, (processRows env "initial" now vocab p rs (row :: rest)).state.trace =
        rs.trace ++ .fetchCar row.car_id :: tl) := by
  refine ⟨?_, ?_, ?_⟩
  · intro ht
    unfold processRows
    rw [if_pos ⟨rfl, ht⟩]
  · intro hnull
    refine processRows_cons_fetch env "initial" now vocab p rs row rest ?_
    rintro ⟨-, t, ht, -⟩
    rw [hnull] at ht
    exact Option.noConfusion ht
  · intro t hsome hnlt
    refine processRows_cons_fetch env "initial" now vocab p rs row rest ?_
    rintro ⟨-, t', ht', hlt'⟩
    rw [hsome] at ht'
    cases Option.some.inj ht'
    exact hnlt hlt'

/-- C7 witness: a null-timestamp row is processed normally (its detail page
is fetched) and a pre-2023 row stops the run with a final checkpoint. -/
theorem c7_cutoff_iff_witness :
    (∃ tl, (processRows c1Env "initial" 0 [] 1
        { crawl := c1State, store := fun _ => none, trace := [], firstSig := none }
        [{ owner := "u", display_name := "d", car_id := 9, updated_raw := "N/A",
           updated_at_london := none, signature := "9|u|N/A" }]).state.trace =
      [] ++ .fetchCar 9 :: tl) ∧
    processRows c1Env "initial" 0 [] 1
        { crawl := c1State, store := fun _ => none, trace := [], firstSig := none }
        [{ owner := "u", display_name := "d", car_id := 9, updated_raw := "x",
           updated_at_london := some (mkDT 2022 12 31 0 0), signature := "9|u|x" }] =
      .stopRun (writeCheckpoint
        { crawl := c1State, store := fun _ => none, trace := [], firstSig := none }
        none 0 "initial" 1) := by
  constructor
  · exact (c7_cutoff_iff c1Env 0 [] 1
      { crawl := c1State, store := fun _ => none, trace := [], firstSig := none }
      { owner := "u", display_name := "d", car_id := 9, updated_raw := "N/A",
        updated_at_london := none, signature := "9|u|N/A" } []).2.1 rfl
  · exact (c7_cutoff_iff c1Env 0 [] 1
      { crawl := c1State, store := fun _ => none, trace := [], firstSig := none }
      { owner := "u", display_name := "d", car_id := 9, updated_raw := "x",
        updated_at_london := some (mkDT 2022 12 31 0 0), signature := "9|u|x" } []).1
      ⟨mkDT 2022 12 31 0 0, rfl, by decide⟩

/-! ## Checkpoint-discipline invariants (C3, C10) -/

/-- Effect of one trace event on the persisted `CrawlState`: only an
explicit `update_scrape_state` call changes it. -/
def applyStateEvent (st : CrawlState) : Event → CrawlState
  | .writeState sig runAt mode page => update_scrape_state st sig runAt mode page
  | .fetchPage _ => st
  | .fetchCar _ => st
  | .dbWrite _ => st

/-- Row processing: the trace grows by `tl`; the persisted `CrawlState` is
exactly the fold of the recorded checkpoint writes over `tl`; the head
signature is never changed; every checkpoint written carries the recorded
head signature; and a fatal (403) exit or a completed page writes no
checkpoint at all inside the row loop. -/
theorem processRows_master (env : Env) (mode : String) (now : Int)
    (vocab : List String) (p : Int) :
    ∀ (rows : List ListingRow) (rs : RunState), ∃ tl,
      (processRows env mode now vocab p rs rows).state.trace = rs.trace ++ tl ∧
      (processRows env mode now vocab p rs rows).state.crawl =
        tl.foldl applyStateEvent rs.crawl ∧
      (processRows env mode now vocab p rs rows).state.firstSig = rs.firstSig ∧
      (∀ s r m q, Event.writeState s r m q ∈ tl → s = rs.firstSig) ∧
      (∀ rs', processRows env mode now vocab p rs rows = .fatalRun rs' →
        ∀ s r m q, Event.writeState s r m q ∉ tl) ∧
      (∀ rs', processRows env mode now vocab p rs rows = .continueRun rs' →
        ∀ s r m q, Event.writeState s r m q ∉ tl) := by
  intro rows
  induction rows with
  | nil =>
    intro rs
    exact ⟨[], by simp [processRows, RowsResult.state], by simp [processRows, RowsResult.state],
      by simp [processRows, RowsResult.state], by simp,
      fun rs' h => by simp [processRows] at h, fun rs' h => by simp⟩
  | cons row rest ih =>
    intro rs
    unfold processRows
    split
    · refine ⟨[.writeState rs.firstSig (some now) (some mode) (some p)],
        rfl, rfl, rfl, ?_, ?_, ?_⟩
      · intro s r m q hmem
        simp only [List.mem_singleton, Event.writeState.injEq] at hmem
        exact hmem.1
      · intro rs' h
        exact absurd h (by simp)
      · intro rs' h
        exact absurd h (by simp)
    · split
      · refine ⟨[.fetchCar row.car_id], by simp [RunState.addEvent, RowsResult.state],
          by simp [RunState.addEvent, RowsResult.state, applyStateEvent],
          by simp [RunState.addEvent, RowsResult.state], ?_, ?_, ?_⟩
        · intro s r m q hmem
          simp at hmem
        · intro rs' _ s r m q hmem
          simp at hmem
        · intro rs' _ s r m q hmem
          simp at hmem
      · split
        · obtain ⟨tl, h1, h2, h3, h4, h5, h6⟩ := ih (rs.addEvent (.fetchCar row.car_id))
          refine ⟨.fetchCar row.car_id :: tl,
            by rw [h1]; simp [RunState.addEvent],
            by rw [h2]; simp [RunState.addEvent, applyStateEvent],
            by rw [h3]; simp [RunState.addEvent],
            ?_, ?_, ?_⟩
          · intro s r m q hmem
            rcases List.mem_cons.mp hmem with h | h
            · exact absurd h (by simp)
            · exact h4 s r m q h
          · intro rs' hr s r m q hmem
            rcases List.mem_cons.mp hmem with h | h
            · exact absurd h (by simp)
            · exact h5 rs' hr s r m q h
          · intro rs' hr s r m q hmem
            rcases List.mem_cons.mp hmem with h | h
            · exact absurd h (by simp)
            · exact h6 rs' hr s r m q h
        · split
          · obtain ⟨tl, h1, h2, h3, h4, h5, h6⟩ := ih (rs.addEvent (.fetchCar row.car_id))
            refine ⟨.fetchCar row.car_id :: tl,
              by rw [h1]; simp [RunState.addEvent],
              by rw [h2]; simp [RunState.addEvent, applyStateEvent],
              by rw [h3]; simp [RunState.addEvent],
              ?_, ?_, ?_⟩
            · intro s r m q hmem
              rcases List.mem_cons.mp hmem with h | h
              · exact absurd h (by simp)
              · exact h4 s r m q h
            · intro rs' hr s r m q hmem
              rcases List.mem_cons.mp hmem with h | h
              · exact absurd h (by simp)
              · exact h5 rs' hr s r m q h
            · intro rs' hr s r m q hmem
              rcases List.mem_cons.mp hmem with h | h
              · exact absurd h (by simp)
              · exact h6 rs' hr s r m q h
          · dsimp only [RunState.addEvent]
            cases hop : reconcile row (env.carDetails row.car_id) (rs.store row.car_id) now vocab with
            | skip =>
              obtain ⟨tl, h1, h2, h3, h4, h5, h6⟩ :=
                ih { rs with trace := rs.trace ++ [.fetchCar row.car_id] }
              refine ⟨.fetchCar row.car_id :: tl,
                by rw [h1]; simp,
                by rw [h2]; simp [applyStateEvent],
                by rw [h3],
                ?_, ?_, ?_⟩
              · intro s r m q hmem
                rcases List.mem_cons.mp hmem with h | h
                · exact absurd h (by simp)
                · exact h4 s r m q h
              · intro rs' hr s r m q hmem
                rcases List.mem_cons.mp hmem with h | h
                · exact absurd h (by simp)
                · exact h5 rs' hr s r m q h
              · intro rs' hr s r m q hmem
                rcases List.mem_cons.mp hmem with h | h
                · exact absurd h (by simp)
                · exact h6 rs' hr s r m q h
            | upsert e =>
              obtain ⟨tl, h1, h2, h3, h4, h5, h6⟩ :=
                ih { rs with trace := rs.trace ++ [.fetchCar row.car_id] ++ [.dbWrite (.upsert e)],
                             store := applyCarWrite rs.store (.upsert e) }
              refine ⟨.fetchCar row.car_id :: .dbWrite (.upsert e) :: tl,
                by rw [h1]; simp,
                by rw [h2]; simp [applyStateEvent],
                by rw [h3],
                ?_, ?_, ?_⟩
              · intro s r m q hmem
                rcases List.mem_cons.mp hmem with h | h
                · exact absurd h (by simp)
                · rcases List.mem_cons.mp h with h' | h'
                  · exact absurd h' (by simp)
                  · exact h4 s r m q h'
              · intro rs' hr s r m q hmem
                rcases List.mem_cons.mp hmem with h | h
                · exact absurd h (by simp)
                · rcases List.mem_cons.mp h with h' | h'
                  · exact absurd h' (by simp)
                  · exact h5 rs' hr s r m q h'
              · intro rs' hr s r m q hmem
                rcases List.mem_cons.mp hmem with h | h
                · exact absurd h (by simp)
                · rcases List.mem_cons.mp h with h' | h'
                  · exact absurd h' (by simp)
                  · exact h6 rs' hr s r m q h'
            | patch id pch =>
              obtain ⟨tl, h1, h2, h3, h4, h5, h6⟩ :=
                ih { rs with trace := rs.trace ++ [.fetchCar row.car_id] ++ [.dbWrite (.patch id pch)],
                             store := applyCarWrite rs.store (.patch id pch) }
              refine ⟨.fetchCar row.car_id :: .dbWrite (.patch id pch) :: tl,
                by rw [h1]; simp,
                by rw [h2]; simp [applyStateEvent],
                by rw [h3],
                ?_, ?_, ?_⟩
              · intro s r m q hmem
                rcases List.mem_cons.mp hmem with h | h
                · exact absurd h (by simp)
                · rcases List.mem_cons.mp h with h' | h'
                  · exact absurd h' (by simp)
                  · exact h4 s r m q h'
              · intro rs' hr s r m q hmem
                rcases List.mem_cons.mp hmem with h | h
                · exact absurd h (by simp)
                · rcases List.mem_cons.mp h with h' | h'
                  · exact absurd h' (by simp)
                  · exact h5 rs' hr s r m q h'
              · intro rs' hr s r m q hmem
                rcases List.mem_cons.mp hmem with h | h
                · exact absurd h (by simp)
                · rcases List.mem_cons.mp h with h' | h'
                  · exact absurd h' (by simp)
                  · exact h6 rs' hr s r m q h'

@[simp] theorem writeCheckpoint_crawl (rs : RunState) (sig : Option String)
    (now : Int) (mode : String) (p : Int) :
    (writeCheckpoint rs sig now mode p).crawl =
      update_scrape_state rs.crawl sig (some now) (some mode) (some p) := rfl

@[simp] theorem writeCheckpoint_firstSig (rs : RunState) (sig : Option String)
    (now : Int) (mode : String) (p : Int) :
    (writeCheckpoint rs sig now mode p).firstSig = rs.firstSig := rfl

@[simp] theorem writeCheckpoint_store (rs : RunState) (sig : Option String)
    (now : Int) (mode : String) (p : Int) :
    (writeCheckpoint rs sig now mode p).store = rs.store := rfl

@[simp] theorem firstSig_update_crawl (rs : RunState) (c : Prop) [Decidable c]
    (x : Option String) :
    (if c then { rs with firstSig := x } else rs).crawl = rs.crawl := by
  split <;> rfl

@[simp] theorem firstSig_update_store (rs : RunState) (c : Prop) [Decidable c]
    (x : Option String) :
    (if c then { rs with firstSig := x } else rs).store = rs.store := by
  split <;> rfl

/-- Checkpoint-free trace segments do not move the persisted `CrawlState`. -/
theorem foldl_ase_no_write : ∀ {tl : List Event} {st : CrawlState},
    (∀ s r m q, Event.writeState s r m q ∉ tl) → tl.foldl applyStateEvent st = st := by
  intro tl
  induction tl with
  | nil => intro st _; rfl
  | cons ev t ih =>
    intro st h
    cases ev with
    | writeState s r m q => exact absurd (List.mem_cons_self _ _) (h s r m q)
    | fetchPage p => exact ih (fun s r m q hm => h s r m q (List.mem_cons_of_mem _ hm))
    | fetchCar c => exact ih (fun s r m q hm => h s r m q (List.mem_cons_of_mem _ hm))
    | dbWrite op => exact ih (fun s r m q hm => h s r m q (List.mem_cons_of_mem _ hm))

/-- One listing page: the trace grows by `tl`; the persisted `CrawlState`
is exactly the fold of the recorded checkpoint writes over `tl`; a fatal
page leaves it untouched and records no checkpoint; the head signature is
preserved (or established from the page's first row); and every checkpoint
written carries the (possibly truthiness-filtered) head signature, which is
non-null whenever a checkpoint is written. -/
theorem runPage_master (env : Env) (mode : String) (now : Int)
    (stopSig : Option String) (p : Int) (rs : RunState) (km : Option (List String)) :
    ∃ tl,
      (runPage env mode now stopSig p rs km).1.trace = rs.trace ++ tl ∧
      (runPage env mode now stopSig p rs km).1.crawl =
        tl.foldl applyStateEvent rs.crawl ∧
      ((runPage env mode now stopSig p rs km).2 = .fatalPage →
        (runPage env mode now stopSig p rs km).1.crawl = rs.crawl ∧
        ∀ s r m q, Event.writeState s r m q ∉ tl) ∧
      ((runPage env mode now stopSig p rs km).1.firstSig = rs.firstSig ∨
        (rs.firstSig = none ∧ ∃ r0 rest, env.pageRows p = r0 :: rest ∧
          (runPage env mode now stopSig p rs km).1.firstSig = some r0.signature)) ∧
      (∀ s r m q, Event.writeState s r m q ∈ tl →
        (s = (runPage env mode now stopSig p rs km).1.firstSig ∨
          s = truthySig (runPage env mode now stopSig p rs km).1.firstSig) ∧
        (runPage env mode now stopSig p rs km).1.firstSig ≠ none) := by
  unfold runPage
  split
  · refine ⟨[.fetchPage p], rfl, by simp [RunState.addEvent, applyStateEvent], ?_, Or.inl rfl, ?_⟩
    · exact fun _ => ⟨rfl, fun s r m q hm => by simp at hm⟩
    · intro s r m q hm
      simp at hm
  · split
    · refine ⟨[.fetchPage p], rfl, by simp [RunState.addEvent, applyStateEvent], ?_, Or.inl rfl, ?_⟩
      · intro h
        exact absurd h (by simp)
      · intro s r m q hm
        simp at hm
    · rename_i r0 rest hrows
      dsimp only
      have hfs2 : (if (rs.addEvent (.fetchPage p)).firstSig = none
          then { rs.addEvent (.fetchPage p) with firstSig := some r0.signature }
          else rs.addEvent (.fetchPage p)).firstSig =
            some (rs.firstSig.getD r0.signature) := by
        rcases h : rs.firstSig with _ | h0 <;> simp [RunState.addEvent, h]
      have hfs2' : (if (rs.addEvent (.fetchPage p)).firstSig = none
          then { rs.addEvent (.fetchPage p) with firstSig := some r0.signature }
          else rs.addEvent (.fetchPage p)).firstSig = rs.firstSig ∨
          (rs.firstSig = none ∧ ∃ a b, env.pageRows p = a :: b ∧
            (if (rs.addEvent (.fetchPage p)).firstSig = none
              then { rs.addEvent (.fetchPage p) with firstSig := some r0.signature }
              else rs.addEvent (.fetchPage p)).firstSig = some a.signature) := by
        rcases h : rs.firstSig with _ | h0
        · exact Or.inr ⟨rfl, r0, rest, hrows, by simp [RunState.addEvent, h]⟩
        · exact Or.inl (by simp [RunState.addEvent, h])
      have htr2 : (if (rs.addEvent (.fetchPage p)).firstSig = none
          then { rs.addEvent (.fetchPage p) with firstSig := some r0.signature }
          else rs.addEvent (.fetchPage p)).trace = rs.trace ++ [.fetchPage p] := by
        rw [firstSig_update_trace, addEvent_trace]
      have hcr2 : (if (rs.addEvent (.fetchPage p)).firstSig = none
          then { rs.addEvent (.fetchPage p) with firstSig := some r0.signature }
          else rs.addEvent (.fetchPage p)).crawl = rs.crawl := by
        rw [firstSig_update_crawl]
        rfl
      split
      · refine ⟨[.fetchPage p,
          .writeState (some (rs.firstSig.getD r0.signature)) (some now) (some mode) (some p)],
          ?_, ?_, ?_, ?_, ?_⟩
        · rw [writeCheckpoint_trace, hfs2, htr2, List.append_assoc]
          rfl
        · rw [writeCheckpoint_crawl, hfs2, hcr2]
          simp [applyStateEvent]
        · intro h
          exact absurd h (by simp)
        · rw [writeCheckpoint_firstSig]
          exact hfs2'
        · intro s r m q hm
          rw [writeCheckpoint_firstSig, hfs2]
          refine ⟨?_, by simp⟩
          rcases List.mem_cons.mp hm with h | h
          · exact absurd h (by simp)
          · rcases List.mem_cons.mp h with h' | h'
            · simp only [Event.writeState.injEq] at h'
              exact Or.inl h'.1
            · simp at h'
      · obtain ⟨tl2, h1, h2, h3, h4, h5, h6⟩ := processRows_master env mode now
          (resolveVocab env p km) p (r0 :: rest)
          (if (rs.addEvent (.fetchPage p)).firstSig = none
            then { rs.addEvent (.fetchPage p) with firstSig := some r0.signature }
            else rs.addEvent (.fetchPage p))
        rcases hpr : processRows env mode now (resolveVocab env p km) p
            (if (rs.addEvent (.fetchPage p)).firstSig = none
              then { rs.addEvent (.fetchPage p) with firstSig := some r0.signature }
              else rs.addEvent (.fetchPage p)) (r0 :: rest) with rs' | rs' | rs'
        all_goals rw [hpr] at h1 h2 h3 h5 h6
        all_goals dsimp only [RowsResult.state] at h1 h2 h3
        -- continueRun
        · refine ⟨.fetchPage p :: tl2 ++
            [.writeState (truthySig rs'.firstSig) (some now) (some mode) (some p)],
            ?_, ?_, ?_, ?_, ?_⟩
          · rw [writeCheckpoint_trace, h1, htr2]
            simp
          · rw [writeCheckpoint_crawl, h2, hcr2]
            simp [List.foldl_append, applyStateEvent]
          · intro h
            exact absurd h (by simp)
          · rw [writeCheckpoint_firstSig, h3]
            exact hfs2'
          · intro s r m q hm
            rw [writeCheckpoint_firstSig, h3, hfs2]
            refine ⟨?_, by simp⟩
            rcases List.mem_cons.mp hm with h | h
            · exact absurd h (by simp)
            · rcases List.mem_append.mp h with h' | h'
              · exact Or.inl ((h4 s r m q h').trans (hfs2 ▸ h3 ▸ rfl))
              · simp only [List.mem_singleton, Event.writeState.injEq] at h'
                exact Or.inr (by rw [h'.1, h3, hfs2])
        -- stopRun
        · refine ⟨.fetchPage p :: tl2, ?_, ?_, ?_, ?_, ?_⟩
          · rw [h1, htr2]
            simp
          · rw [h2, hcr2]
            simp [applyStateEvent]
          · intro h
            exact absurd h (by simp)
          · rw [h3]
            exact hfs2'
          · intro s r m q hm
            rw [h3, hfs2]
            refine ⟨?_, by simp⟩
            rcases List.mem_cons.mp hm with h | h
            · exact absurd h (by simp)
            · exact Or.inl ((h4 s r m q h).trans (hfs2 ▸ rfl))
        -- fatalRun
        · refine ⟨.fetchPage p :: tl2, ?_, ?_, ?_, ?_, ?_⟩
          · rw [h1, htr2]
            simp
          · rw [h2, hcr2]
            simp [applyStateEvent]
          · intro _
            have hnw := h5 rs' rfl
            refine ⟨?_, ?_⟩
            · rw [h2, hcr2]
              exact foldl_ase_no_write hnw
            · intro s r m q hm
              rcases List.mem_cons.mp hm with h | h
              · exact absurd h (by simp)
              · exact hnw s r m q h
          · rw [h3]
            exact hfs2'
          · intro s r m q hm
            rw [h3, hfs2]
            refine ⟨?_, by simp⟩
            rcases List.mem_cons.mp hm with h | h
            · exact absurd h (by simp)
            · exact Or.inl ((h4 s r m q h).trans (hfs2 ▸ rfl))

/-- Across any number of pages, the persisted `CrawlState` is exactly the
fold of the recorded checkpoint writes over the newly traced events. -/
theorem runLoop_crawl (env : Env) (mode : String) (now : Int) (stopSig : Option String) :
    ∀ (fuel : Nat) (p : Int) (rs : RunState) (km : Option (List String)), ∃ tl,
      (runLoop env mode now stopSig fuel p rs km).1.trace = rs.trace ++ tl ∧
      (runLoop env mode now stopSig fuel p rs km).1.crawl =
        tl.foldl applyStateEvent rs.crawl := by
  intro fuel
  induction fuel with
  | zero => exact fun p rs km => ⟨[], by simp [runLoop], by simp [runLoop]⟩
  | succ fuel ih =>
    intro p rs km
    obtain ⟨tl1, ht1, hc1, -, -, -⟩ := runPage_master env mode now stopSig p rs km
    unfold runLoop
    split
    · rename_i rs' heq
      rw [heq] at ht1 hc1
      exact ⟨tl1, ht1, hc1⟩
    · rename_i rs' heq
      rw [heq] at ht1 hc1
      exact ⟨tl1, ht1, hc1⟩
    · rename_i rs' heq
      rw [heq] at ht1 hc1
      exact ⟨tl1, ht1, hc1⟩
    · rename_i rs' vocab heq
      rw [heq] at ht1 hc1
      obtain ⟨tl2, ht2, hc2⟩ := ih (p + 1) rs' (some vocab)
      exact ⟨tl1 ++ tl2, by rw [ht2, ht1]; simp,
        by rw [hc2, hc1, List.foldl_append]⟩

/-- C3: no fatal abort writes a checkpoint.  (i) A 5xx on a listing fetch
aborts with the state exactly as at page entry, the only new event being
the page fetch itself; (ii) every fatal page outcome — 5xx, or a 403 that
survived all retries on a detail fetch — leaves the persisted `CrawlState`
exactly as at page entry and records no checkpoint write for the
in-progress page; (iii) in general the persisted `CrawlState` is exactly
the left fold of the explicitly recorded discrete checkpoint writes, each
of which the orchestrator emits only after its page or stop condition
completed. -/
theorem c3_fatal_preserves_checkpoint :
    (∀ (env : Env) (mode : String) (now : Int) (stopSig : Option String)
        (p : Int) (rs : RunState) (km : Option (List String)),
      500 ≤ env.pageStatus p →
      runPage env mode now stopSig p rs km =
        ({ rs with trace := rs.trace ++ [.fetchPage p] }, .fatalPage)) ∧
    (∀ (env : Env) (mode : String) (now : Int) (stopSig : Option String)
        (p : Int) (rs : RunState) (km : Option (List String)),
      (runPage env mode now stopSig p rs km).2 = .fatalPage →
      (runPage env mode now stopSig p rs km).1.crawl = rs.crawl ∧
      ∃ tl, (runPage env mode now stopSig p rs km).1.trace = rs.trace ++ tl ∧
        ∀ s r m q, Event.writeState s r m q ∉ tl) ∧
    (∀ (env : Env) (mode : String) (now : Int) (stopSig : Option String)
        (fuel : Nat) (p : Int) (rs : RunState) (km : Option (List String)), ∃ tl,
      (runLoop env mode now stopSig fuel p rs km).1.trace = rs.trace ++ tl ∧
      (runLoop env mode now stopSig fuel p rs km).1.crawl =
        tl.foldl applyStateEvent rs.crawl) := by
  refine ⟨?_, ?_, ?_⟩
  · intro env mode now stopSig p rs km h
    unfold runPage
    rw [if_pos h]
    rfl
  · intro env mode now stopSig p rs km hfat
    obtain ⟨tl, ht, -, h3, -, -⟩ := runPage_master env mode now stopSig p rs km
    obtain ⟨hcr, hnw⟩ := h3 hfat
    exact ⟨hcr, tl, ht, hnw⟩
  · exact fun env mode now stopSig fuel p rs km =>
      runLoop_crawl env mode now stopSig fuel p rs km

/-- A listing environment whose every page fetch answers 500. -/
def c3Env : Env :=
  { pageStatus := fun _ => 500, pageRows := fun _ => [],
    pageMakes := fun _ => [], carStatus := fun _ => 200,
    carSoft := fun _ => false,
    carDetails := fun _ => { ownership := none, notes_text := "" } }

/-- C3 witness: a 5xx on the first listing page aborts with the crawl state
untouched and no checkpoint recorded. -/
theorem c3_fatal_preserves_checkpoint_witness :
    runPage c3Env "initial" 0 none 1
        { crawl := c1State, store := fun _ => none, trace := [], firstSig := none }
        none =
      ({ crawl := c1State, store := fun _ => none, trace := [.fetchPage 1],
         firstSig := none }, .fatalPage) ∧
    (runPage c3Env "initial" 0 none 1
        { crawl := c1State, store := fun _ => none, trace := [], firstSig := none }
        none).1.crawl = c1State :=
  ⟨c3_fatal_preserves_checkpoint.1 c3Env "initial" 0 none 1
      { crawl := c1State, store := fun _ => none, trace := [], firstSig := none }
      none (by decide),
   (c3_fatal_preserves_checkpoint.2.1 c3Env "initial" 0 none 1
      { crawl := c1State, store := fun _ => none, trace := [], firstSig := none }
      none (by rw [c3_fatal_preserves_checkpoint.1 c3Env "initial" 0 none 1
        { crawl := c1State, store := fun _ => none, trace := [], firstSig := none }
        none (by decide)])).1⟩

/-- Once the head signature is recorded it never changes. -/
theorem runLoop_firstSig_mono (env : Env) (mode : String) (now : Int)
    (stopSig : Option String) :
    ∀ (fuel : Nat) (p : Int) (rs : RunState) (km : Option (List String)) (h : String),
      rs.firstSig = some h →
      (runLoop env mode now stopSig fuel p rs km).1.firstSig = some h := by
  intro fuel
  induction fuel with
  | zero => intro p rs km h hh; simpa [runLoop] using hh
  | succ fuel ih =>
    intro p rs km h hh
    obtain ⟨tl, -, -, -, hfs, -⟩ := runPage_master env mode now stopSig p rs km
    have hfs' : (runPage env mode now stopSig p rs km).1.firstSig = some h := by
      rcases hfs with h' | ⟨h0, -⟩
      · rw [h', hh]
      · rw [h0] at hh
        exact Option.noConfusion hh
    unfold runLoop
    split
    · rename_i rs' heq
      rw [heq] at hfs'
      exact hfs'
    · rename_i rs' heq
      rw [heq] at hfs'
      exact hfs'
    · rename_i rs' heq
      rw [heq] at hfs'
      exact hfs'
    · rename_i rs' vocab heq
      rw [heq] at hfs'
      exact ih (p + 1) rs' (some vocab) h hfs'

/-- A successfully fetched non-empty page pins the head signature: it stays
what it was, or becomes the page's first row's signature. -/
theorem runPage_firstSig_rows (env : Env) (mode : String) (now : Int)
    (stopSig : Option String) (p : Int) (rs : RunState) (km : Option (List String))
    (r0 : ListingRow) (rest : List ListingRow)
    (hok : env.pageStatus p < 500) (hrows : env.pageRows p = r0 :: rest) :
    (runPage env mode now stopSig p rs km).1.firstSig =
      some (rs.firstSig.getD r0.signature) := by
  unfold runPage
  rw [if_neg (by omega), hrows]
  dsimp only
  have hfs2 : (if (rs.addEvent (.fetchPage p)).firstSig = none
      then { rs.addEvent (.fetchPage p) with firstSig := some r0.signature }
      else rs.addEvent (.fetchPage p)).firstSig =
        some (rs.firstSig.getD r0.signature) := by
    rcases h : rs.firstSig with _ | h0 <;> simp [RunState.addEvent, h]
  split
  · rw [writeCheckpoint_firstSig]
    exact hfs2
  · obtain ⟨tl2, -, -, h3, -, -, -⟩ := processRows_master env mode now
      (resolveVocab env p km) p (r0 :: rest)
      (if (rs.addEvent (.fetchPage p)).firstSig = none
        then { rs.addEvent (.fetchPage p) with firstSig := some r0.signature }
        else rs.addEvent (.fetchPage p))
    rcases hpr : processRows env mode now (resolveVocab env p km) p
        (if (rs.addEvent (.fetchPage p)).firstSig = none
          then { rs.addEvent (.fetchPage p) with firstSig := some r0.signature }
          else rs.addEvent (.fetchPage p)) (r0 :: rest) with rs' | rs' | rs'
    all_goals rw [hpr] at h3
    all_goals dsimp only [RowsResult.state] at h3
    · rw [writeCheckpoint_firstSig, h3]
      exact hfs2
    · rw [h3]
      exact hfs2
    · rw [h3]
      exact hfs2

/-- Every checkpoint a run writes carries the (non-null) head signature. -/
theorem runLoop_writes_head (env : Env) (mode : String) (now : Int)
    (stopSig : Option String)
    (hsig : ∀ q r, r ∈ env.pageRows q → r.signature ≠ "") :
    ∀ (fuel : Nat) (p : Int) (rs : RunState) (km : Option (List String)),
      (rs.firstSig = none ∨ ∃ h, rs.firstSig = some h ∧ h ≠ "") →
      (∀ s r m q, Event.writeState s r m q ∈ rs.trace → s = rs.firstSig ∧ s ≠ none) →
      ∀ s r m q,
        Event.writeState s r m q ∈ (runLoop env mode now stopSig fuel p rs km).1.trace →
        s = (runLoop env mode now stopSig fuel p rs km).1.firstSig ∧ s ≠ none := by
  intro fuel
  induction fuel with
  | zero =>
    intro p rs km hfs hinv
    simpa [runLoop] using hinv
  | succ fuel ih =>
    intro p rs km hfs hinv
    obtain ⟨tl, ht, -, -, hfsd, hws⟩ := runPage_master env mode now stopSig p rs km
    have hfs2 : (runPage env mode now stopSig p rs km).1.firstSig = none ∨
        ∃ h, (runPage env mode now stopSig p rs km).1.firstSig = some h ∧ h ≠ "" := by
      rcases hfsd with h | ⟨-, r0, rest, hrows, hsome⟩
      · rw [h]
        exact hfs
      · exact Or.inr ⟨r0.signature, hsome,
          hsig p r0 (hrows ▸ List.mem_cons_self r0 rest)⟩
    have hinv2 : ∀ s r m q,
        Event.writeState s r m q ∈ (runPage env mode now stopSig p rs km).1.trace →
        s = (runPage env mode now stopSig p rs km).1.firstSig ∧ s ≠ none := by
      intro s r m q hm
      rw [ht] at hm
      rcases List.mem_append.mp hm with hmo | hmn
      · obtain ⟨hold, hnn⟩ := hinv s r m q hmo
        rcases hfsd with h | ⟨hnone, -⟩
        · rw [h]
          exact ⟨hold, hnn⟩
        · rw [hnone] at hold
          exact absurd hold hnn
      · obtain ⟨hor, hnn'⟩ := hws s r m q hmn
        rcases hfs2 with h0 | ⟨h, hh, hne⟩
        · exact absurd h0 hnn'
        · rcases hor with h' | h'
          · exact ⟨h', by rw [h', hh]; exact Option.noConfusion⟩
          · rw [hh] at h'
            have htr : truthySig (some h) = some h := by simp [truthySig, hne]
            rw [htr] at h'
            rw [hh]
            exact ⟨h', by rw [h']; exact Option.noConfusion⟩
    unfold runLoop
    split
    · rename_i rs' heq
      rw [heq] at hinv2
      exact hinv2
    · rename_i rs' heq
      rw [heq] at hinv2
      exact hinv2
    · rename_i rs' heq
      rw [heq] at hinv2
      exact hinv2
    · rename_i rs' vocab heq
      rw [heq] at hinv2 hfs2
      exact ih (p + 1) rs' (some vocab) hfs2 hinv2

/-- C10: in both modes every checkpoint write — the per-page checkpoint,
the initial-mode cutoff checkpoint (and the nightly stop write) — also
carries `last_fleet_signature` = the head signature of the current run
(the signature of the first row seen): the written value equals the run's
recorded head signature and is never the omitted/null field the spec's
three-field description suggests, so applying the write overwrites the
persisted `last_fleet_signature`, replacing a nightly baseline with an
initial-mode run's own head signature as well. -/
theorem c10_checkpoints_carry_head_signature (env : Env) (mode : String)
    (st0 : CrawlState) (store0 : Store) (now : Int)
    (hsig : ∀ q r, r ∈ env.pageRows q → r.signature ≠ "") :
    (∀ (fuel : Nat) (s : Option String) (r : Option Int) (m : Option String)
        (q : Option Int),
      Event.writeState s r m q ∈ (run env mode st0 store0 now fuel).1.trace →
      s = (run env mode st0 store0 now fuel).1.firstSig ∧ s ≠ none) ∧
    (∀ (fuel : Nat) (r0 : ListingRow) (rest : List ListingRow),
      env.pageStatus (if mode = "initial" then get_initial_resume_page st0 else 1) < 500 →
      env.pageRows (if mode = "initial" then get_initial_resume_page st0 else 1) =
        r0 :: rest →
      (run env mode st0 store0 now (fuel + 1)).1.firstSig = some r0.signature) ∧
    (∀ (st : CrawlState) (s : Option String) (r : Option Int) (m : Option String)
        (q : Option Int), s ≠ none →
      (applyStateEvent st (.writeState s r m q)).last_fleet_signature = s) := by
  refine ⟨?_, ?_, ?_⟩
  · intro fuel s r m q hm
    exact runLoop_writes_head env mode now _ hsig fuel _
      { crawl := st0, store := store0, trace := [], firstSig := none } none
      (Or.inl rfl) (fun s r m q hm => absurd hm (List.not_mem_nil _)) s r m q hm
  · intro fuel r0 rest hok hrows
    have hfp := runPage_firstSig_rows env mode now
      (if mode = "nightly" then st0.last_fleet_signature else none)
      (if mode = "initial" then get_initial_resume_page st0 else 1)
      { crawl := st0, store := store0, trace := [], firstSig := none } none
      r0 rest hok hrows
    show (runLoop env mode now
        (if mode = "nightly" then st0.last_fleet_signature else none) (fuel + 1)
        (if mode = "initial" then get_initial_resume_page st0 else 1)
        { crawl := st0, store := store0, trace := [], firstSig := none }
        none).1.firstSig = some r0.signature
    unfold runLoop
    split
    · rename_i rs' heq
      rw [heq] at hfp
      exact hfp
    · rename_i rs' heq
      rw [heq] at hfp
      exact hfp
    · rename_i rs' heq
      rw [heq] at hfp
      exact hfp
    · rename_i rs' vocab heq
      rw [heq] at hfp
      exact runLoop_firstSig_mono env mode now _ fuel _ rs' (some vocab)
        r0.signature hfp
  · intro st s r m q hnn
    rcases s with _ | sv
    · exact absurd rfl hnn
    · rfl

/-- C10 witness: the nightly stop write of the §8 run carries the head
signature `"A"` — page 1 row 1's signature — and is not omitted. -/
theorem c10_checkpoints_carry_head_signature_witness :
    some "A" = (run c1Env "nightly" c1State (fun _ => none) 0 5).1.firstSig ∧
    (some "A" : Option String) ≠ none := by
  have hsig : ∀ q r, r ∈ c1Env.pageRows q → r.signature ≠ "" := by
    intro q r hr
    unfold c1Env at hr
    dsimp only at hr
    split at hr
    · simp at hr
      rcases hr with rfl | rfl | rfl <;> decide
    · split at hr
      · simp at hr
        subst hr
        decide
      · simp at hr
  exact (c10_checkpoints_carry_head_signature c1Env "nightly" c1State
    (fun _ => none) 0 hsig).1 5 (some "A") (some 0) (some "nightly") (some 1)
    (by decide)

/-! ## C6: the Date Normalizer -/

theorem int_emod_eq_mod (a b : Int) : Int.emod a b = a % b := rfl

theorem int_ediv_eq_div (a b : Int) : Int.ediv a b = a / b := rfl

theorem lowerC_digit {c : Char} (h : isDigitC c = true) : lowerC c = c := by
  unfold isDigitC at h
  simp only [Bool.and_eq_true, decide_eq_true_eq] at h
  unfold lowerC
  rw [if_neg]
  rintro ⟨h1, -⟩
  exact absurd (le_trans h1 h.2) (by decide)

theorem matchCI_cons_none {w : Char} {ps l : List Char}
    (h : ∀ c, l.head? = some c → ¬ lowerC c = w) : matchCI (w :: ps) l = none := by
  cases l with
  | nil => rfl
  | cons c cs =>
    unfold matchCI
    rw [if_neg (h c rfl)]

theorem altCI_none_of (pats : List (List Char)) (l : List Char)
    (h : ∀ p ∈ pats, matchCI p l = none) : altCI pats l = none := by
  induction pats with
  | nil => rfl
  | cons p ps ih =>
    unfold altCI
    rw [h p (List.mem_cons_self p ps), ih (fun p' hp' => h p' (List.mem_cons_of_mem p hp'))]
    rfl

/-- A digit-or-colon character never case-insensitively equals a letter. -/
theorem lowerC_ne_of_doc {c : Char} (hc : isDigitC c = true ∨ c = ':')
    {w : Char} (hw1 : isDigitC w = false) (hw2 : w ≠ ':') : ¬ lowerC c = w := by
  intro hcon
  rcases hc with h | rfl
  · rw [lowerC_digit h] at hcon
    subst hcon
    rw [hw1] at h
    exact Bool.noConfusion h
  · rw [(by decide : lowerC ':' = ':')] at hcon
    exact hw2 hcon.symm

theorem altCI_weekday_none_doc {l : List Char}
    (hdoc : ∀ c ∈ l, isDigitC c = true ∨ c = ':') : altCI weekdayNames l = none := by
  cases l with
  | nil => rfl
  | cons c cs =>
    have hc := hdoc c (List.mem_cons_self c cs)
    refine altCI_none_of _ _ ?_
    intro pat hp
    fin_cases hp <;>
      exact matchCI_cons_none (fun c' h' => by
        cases Option.some.inj h'
        exact lowerC_ne_of_doc hc (by decide) (by decide))

theorem longDateFull_none_doc {l : List Char}
    (hdoc : ∀ c ∈ l, isDigitC c = true ∨ c = ':') : longDateFull l = none := by
  unfold longDateFull
  rw [altCI_weekday_none_doc hdoc]

theorem searchYest_none_doc : ∀ {l : List Char},
    (∀ c ∈ l, isDigitC c = true ∨ c = ':') → searchYest l = none := by
  intro l
  induction l with
  | nil => intro _; rfl
  | cons c cs ih =>
    intro hdoc
    have hm : matchCI "yesterday".toList (c :: cs) = none := by
      have he : "yesterday".toList = 'y' :: "esterday".toList := rfl
      rw [he]
      exact matchCI_cons_none (fun c' h' => by
        cases Option.some.inj h'
        exact lowerC_ne_of_doc (hdoc c (List.mem_cons_self c cs)) (by decide) (by decide))
    have hy : yestAt (c :: cs) = none := by
      unfold yestAt
      rw [hm]
    unfold searchYest
    rw [hy]
    exact ih (fun c' hc' => hdoc c' (List.mem_cons_of_mem c hc'))

theorem searchWdTime_none_doc : ∀ {l : List Char},
    (∀ c ∈ l, isDigitC c = true ∨ c = ':') → searchWdTime l = none := by
  intro l
  induction l with
  | nil => intro _; rfl
  | cons c cs ih =>
    intro hdoc
    have hw : wdTimeAt (c :: cs) = none := by
      unfold wdTimeAt
      rw [altCI_weekday_none_doc hdoc]
    unfold searchWdTime
    rw [hw]
    exact ih (fun c' hc' => hdoc c' (List.mem_cons_of_mem c hc'))

/-- A full `HH:MM` match certifies that the input is digits and one colon. -/
theorem hhmmFull_chars {l : List Char} {hh mm : Nat} (hf : hhmmFull l = some (hh, mm)) :
    ∀ c ∈ l, isDigitC c = true ∨ c = ':' := by
  unfold hhmmFull at hf
  rcases hA : hhmmAt l with _ | ⟨h', m', r⟩
  · rw [hA] at hf
    exact absurd hf (by simp)
  · rw [hA] at hf
    cases r with
    | cons c0 cs0 => exact absurd hf (by simp)
    | nil =>
      unfold hhmmAt at hA
      dsimp only at hA
      split at hA
      · split at hA
        · rename_i r1 heq1
          split at hA
          · rename_i a b r2
            split at hA
            · rename_i hcond
              obtain ⟨tw, htw⟩ := List.takeWhile_prefix (l := l) (p := isDigitC)
              have hdrop : l.drop (l.takeWhile isDigitC).length = tw := by
                nth_rewrite 2 [← htw]
                exact List.drop_left _ _
              rw [hdrop] at heq1
              simp only [Option.some.injEq, Prod.mk.injEq] at hA
              have hr2 : r2 = [] := hA.2.2
              intro c hc
              rw [← htw, heq1, hr2] at hc
              rcases List.mem_append.mp hc with h | h
              · exact Or.inl (List.mem_takeWhile_imp h)
              · rcases List.mem_cons.mp h with rfl | h
                · exact Or.inr rfl
                · rcases List.mem_cons.mp h with rfl | h
                  · exact Or.inl hcond.1
                  · rcases List.mem_cons.mp h with rfl | h
                    · exact Or.inl hcond.2.1
                    · exact absurd h (List.not_mem_nil c)
            · exact Option.noConfusion hA
          · exact Option.noConfusion hA
        · exact Option.noConfusion hA
      · exact Option.noConfusion hA

/-- C6 (Date Normalizer): with now = Wednesday 2025-06-11 15:00 local,
`"09:49"` ↦ 2025-06-11T09:49, `"Yesterday (22:19)"` ↦ 2025-06-10T22:19,
`"Friday (10:01)"` ↦ 2025-06-06T10:01, `"Monday 26th January"` ↦
2025-01-26T00:00, and `"N/A"` ↦ null.  In general a bare `HH:MM` means today
at that time unless that time is more than one minute after now, in which
case it means yesterday; and a weekday reference resolves (via `wdResolve`,
the resolution used by branches 3 and 5) to the unique most recent occurrence
of that weekday/time at or before now, i.e. the same-day candidate is pushed
back 7 days exactly when it lies in the future. -/
theorem c6_date_normalizer :
    (parse_fleet_updated "09:49" (mkDT 2025 6 11 15 0) = .ok (some (mkDT 2025 6 11 9 49)) ∧
     parse_fleet_updated "Yesterday (22:19)" (mkDT 2025 6 11 15 0) = .ok (some (mkDT 2025 6 10 22 19)) ∧
     parse_fleet_updated "Friday (10:01)" (mkDT 2025 6 11 15 0) = .ok (some (mkDT 2025 6 6 10 1)) ∧
     parse_fleet_updated "Monday 26th January" (mkDT 2025 6 11 15 0) = .ok (some (mkDT 2025 1 26 0 0)) ∧
     parse_fleet_updated "N/A" (mkDT 2025 6 11 15 0) = .ok none ∧
     weekdayOf (mkDT 2025 6 11 15 0) = 2) ∧
    (∀ (raw : String) (now : Int) (hh mm : Nat),
      hhmmFull (clean_text raw).toList = some (hh, mm) → hh ≤ 23 → mm ≤ 59 →
      parse_fleet_updated raw now =
        .ok (some (if now + 60 < dayStart now + 3600 * hh + 60 * mm
                   then dayStart now + 3600 * hh + 60 * mm - 86400
                   else dayStart now + 3600 * hh + 60 * mm)) ∧
      ∀ r : Int, parse_fleet_updated raw now = .ok (some r) →
        timeOfDay r = 3600 * hh + 60 * mm ∧
        r ≤ now + 60 ∧
        (dayIndex r = dayIndex now ∨ dayIndex r = dayIndex now - 1) ∧
        (dayIndex r = dayIndex now ↔ dayStart now + 3600 * hh + 60 * mm ≤ now + 60)) ∧
    (∀ (now w hm : Int), 0 ≤ w → w < 7 → 0 ≤ hm → hm < 86400 →
      weekdayOf (wdResolve now w hm) = w ∧
      timeOfDay (wdResolve now w hm) = hm ∧
      wdResolve now w hm ≤ now ∧
      now - wdResolve now w hm < 7 * 86400 ∧
      (∀ t : Int, weekdayOf t = w → timeOfDay t = hm → t ≤ now →
        now - t < 7 * 86400 → t = wdResolve now w hm)) := by
  refine ⟨⟨rfl, rfl, rfl, rfl, rfl, rfl⟩, ?_, ?_⟩
  · intro raw now hh mm hf h23 h59
    have hdoc := hhmmFull_chars hf
    have hld := longDateFull_none_doc hdoc
    have hys := searchYest_none_doc hdoc
    have hwd := searchWdTime_none_doc hdoc
    have heq : parse_fleet_updated raw now =
        .ok (some (if now + 60 < dayStart now + 3600 * hh + 60 * mm
                   then dayStart now + 3600 * hh + 60 * mm - 86400
                   else dayStart now + 3600 * hh + 60 * mm)) := by
      unfold parse_fleet_updated
      dsimp only
      simp only [hld, hys, hwd, hf]
      rw [if_pos ⟨h23, h59⟩]
    refine ⟨heq, ?_⟩
    intro r hr
    rw [heq] at hr
    simp only [Except.ok.injEq, Option.some.injEq] at hr
    subst hr
    simp only [timeOfDay, dayIndex, dayStart, int_emod_eq_mod, int_ediv_eq_div]
    split_ifs with hfut
    all_goals try simp only [timeOfDay, dayStart, int_emod_eq_mod] at hfut
    all_goals omega
  · intro now w hm hw0 hw7 hm0 hm1
    have hkey :
        wdResolve now w hm =
            dayStart (now - 86400 * Int.emod (weekdayOf now - w) 7) + hm - 7 * 86400 ∧
          now < dayStart (now - 86400 * Int.emod (weekdayOf now - w) 7) + hm ∨
        wdResolve now w hm =
            dayStart (now - 86400 * Int.emod (weekdayOf now - w) 7) + hm ∧
          ¬ now < dayStart (now - 86400 * Int.emod (weekdayOf now - w) 7) + hm := by
      by_cases hlt : now < dayStart (now - 86400 * Int.emod (weekdayOf now - w) 7) + hm
      · refine Or.inl ⟨?_, hlt⟩
        unfold wdResolve
        dsimp only
        rw [if_pos hlt]
      · refine Or.inr ⟨?_, hlt⟩
        unfold wdResolve
        dsimp only
        rw [if_neg hlt]
    rcases hkey with ⟨hveq, hlt⟩ | ⟨hveq, hlt⟩
    all_goals rw [hveq]
    all_goals clear hveq
    all_goals refine ⟨?_, ?_, ?_, ?_, fun t ht1 ht2 ht3 ht4 => ?_⟩
    all_goals simp only [weekdayOf, timeOfDay, dayIndex, dayStart,
      int_emod_eq_mod, int_ediv_eq_div] at hlt ⊢
    all_goals try simp only [weekdayOf, timeOfDay, dayIndex, dayStart,
      int_emod_eq_mod, int_ediv_eq_div] at ht1 ht2
    all_goals omega

theorem c6_date_normalizer_witness :
    parse_fleet_updated "10:30" (mkDT 2025 6 11 15 0) = .ok (some (mkDT 2025 6 11 10 30)) ∧
    wdResolve (mkDT 2025 6 11 15 0) 4 0 ≤ mkDT 2025 6 11 15 0 := by
  constructor
  · rw [(c6_date_normalizer.2.1 "10:30" (mkDT 2025 6 11 15 0) 10 30 rfl
      (by decide) (by decide)).1]
    rfl
  · exact (c6_date_normalizer.2.2 (mkDT 2025 6 11 15 0) 4 0
      (by decide) (by decide) (by decide) (by decide)).2.2.1

end Scraper
